import Mathlib

/-!
# Verification of the llms transformer pipeline

Shallow embedding of the parts of the `musistudio/llms` gateway that the
frozen claims are about, together with theorems settling each claim.

Conventions used throughout:
* JavaScript objects are embedded as Lean structures; a field that may be
  absent (`undefined`) is an `Option`.
* JavaScript truthiness on strings (`if (s)`) is embedded as
  `s ≠ ""` on a present field, and option fields use explicit helpers.
* `Map` objects are embedded as association lists with JavaScript `Map`
  semantics: `get` returns the entry of the first matching key, `set`
  overwrites in place when the key exists and appends otherwise
  (preserving insertion order).
* Fallible code returns `Except`; streaming state machines are explicit
  folds of a step function over the list of incoming lines or chunks.
-/

/-! ## Kimi transformer: data model (src/transformer/kimi.transformer.ts)

`ToolCall` mirrors the exported interface (the constant field
`type: "function"` carries no information and is omitted). -/

structure ToolFunction where
  name : String
  arguments : String
deriving Repr, DecidableEq

structure ToolCall where
  id : String
  function : ToolFunction
deriving Repr, DecidableEq

/-! ### The canonical-id regex

`getRegexPatterns` builds the id pattern from the template literal
`` `${escapeRegex(idPrefix)}\.[^:]+:(\d+)` `` with the default
`idPrefix = "functions"`.  In a JavaScript template literal `\.` is an
unrecognised escape and collapses to a bare `.`, so the compiled source is
`functions.[^:]+:(\d+)` — the dot is a *wildcard*, not a literal dot.
`RegExp.test` searches unanchored.  The search succeeds iff at some
position the text has the literal `functions`, then one arbitrary
character, then one or more non-colon characters, then `:`, then at least
one digit.  Because the middle run may not contain `:`, a match starting
at a given position exists iff the run of non-colon characters after the
wildcard ends at a colon that is directly followed by a digit. -/

/-- Match of `functions.[^:]+:(\d+)` anchored at the head of `cs`. -/
def kimiIdMatchHere (cs : List Char) : Bool :=
  if "functions".data.isPrefixOf cs then
    match cs.drop 9 with
    | [] => false
    | _ :: rest =>
      match rest.dropWhile (· != ':') with
      | c :: d :: _ =>
        if c = ':' then !(rest.takeWhile (· != ':')).isEmpty && d.isDigit
        else false
      | _ => false
  else false

/-- Unanchored search for `functions.[^:]+:(\d+)`, as `RegExp.test` does. -/
def kimiIdMatch : List Char → Bool
  | [] => false
  | c :: cs => kimiIdMatchHere (c :: cs) || kimiIdMatch cs

/-- `idRegex.test(id)` of the source (with `lastIndex` reset afterwards). -/
def kimiIdTest (s : String) : Bool :=
  kimiIdMatch s.data

/-- The canonical id shape of the spec, `functions.{name}:{n}`: the default
prefix, a dot, a non-empty function name without colons, a colon and a
non-empty run of decimal digits.  This follows the claim's wording and is
used as the hypothesis of the idempotence claim. -/
def isCanonicalKimiId (s : String) : Bool :=
  if "functions.".data.isPrefixOf s.data then
    match (s.data.drop 10).dropWhile (· != ':') with
    | c :: ds =>
      if c = ':' then
        !((s.data.drop 10).takeWhile (· != ':')).isEmpty &&
          !ds.isEmpty && ds.all Char.isDigit
      else false
    | _ => false
  else false

/-! ### ID repair / normalisation

`repairOrNormalizeToolCalls(toolCalls, messages)` consults the options and
the message history.  The history enters only through
`getNextToolCallIndex(messages)` (one `Nat`), so the embedding takes that
value as the parameter `nextIndexBase`; quantifying over it covers every
message history.  The default options `idNormalization = false`,
`repairOnMismatch = true`, `idPrefix = "functions"` are modelled; the
source's early return for an unset `idPrefix` cannot fire with the
default. -/

structure KimiIdOptions where
  idNormalization : Bool
  repairOnMismatch : Bool
deriving Repr, DecidableEq

def kimiDefaultIdOptions : KimiIdOptions :=
  { idNormalization := false, repairOnMismatch := true }

/-- The `toolCalls.map` body with the closure-captured `offset` made
explicit: a rewritten call advances `offset`, a kept call does not. -/
def repairGo (opts : KimiIdOptions) (base : Nat) :
    Nat → List ToolCall → List ToolCall
  | _, [] => []
  | offset, call :: rest =>
    if opts.idNormalization || (opts.repairOnMismatch && !kimiIdTest call.id) then
      { call with
        id := "functions." ++ call.function.name ++ ":" ++ toString (base + offset) }
        :: repairGo opts base (offset + 1) rest
    else
      call :: repairGo opts base offset rest

def repairOrNormalizeToolCalls (opts : KimiIdOptions) (nextIndexBase : Nat)
    (toolCalls : List ToolCall) : List ToolCall :=
  if !opts.idNormalization && !opts.repairOnMismatch then toolCalls
  else if toolCalls.isEmpty then toolCalls
  else repairGo opts nextIndexBase 0 toolCalls

/-! ## Kimi transformer: streaming tool-call assembly
(`handleStreamingToolCalls`, src/transformer/kimi.transformer.ts:418-564)

The wrapped stream splits the body into lines.  A line is embedded after
tokenisation: a line not starting with `data:` (`KLine.other`), a `data:`
line whose payload fails `JSON.parse` (`KLine.malformed`), the sentinel
`data: [DONE]` (`KLine.done`), or a parsed JSON chunk (`KLine.chunk`).
The source's `break` on `[DONE]` only leaves the inner per-read loop; the
lines that remain in `buffered` are handled on the next read, so over an
input of complete lines every line is processed in order and the trailing
`await flush()` runs at end of body.  Separator blank lines are `other`
lines and are forwarded as raw text.

As in the id repair, the message history enters `flush` only through
`getNextToolCallIndex`, embedded as the parameter `base`. -/

def jsMapGet {κ α : Type} [BEq κ] (m : List (κ × α)) (k : κ) : Option α :=
  (m.find? (fun p => p.1 == k)).map (·.2)

def jsMapSet {κ α : Type} [BEq κ] (m : List (κ × α)) (k : κ) (v : α) :
    List (κ × α) :=
  if (m.find? (fun p => p.1 == k)).isSome then
    m.map (fun p => if p.1 == k then (k, v) else p)
  else m ++ [(k, v)]

structure KFragFn where
  name : Option String
  arguments : Option String
deriving Repr, DecidableEq

/-- One element of an incoming `delta.tool_calls` array. -/
structure KToolFrag where
  index : Option Nat
  id : Option String
  function : Option KFragFn
deriving Repr, DecidableEq

structure KDelta where
  tool_calls : Option (List KToolFrag)
deriving Repr, DecidableEq

structure KChoice where
  delta : Option KDelta
  finish_reason : Option String
deriving Repr, DecidableEq

/-- A parsed chunk; `choice` is the source's `parsed.choices?.[0]`. -/
structure KChunk where
  choice : Option KChoice
deriving Repr, DecidableEq

/-- The per-fragment buffer update (source lines 506-528), split into its
successive mutations of `existing`: a present non-empty `id` replaces, a
present non-empty `function.name` replaces, a present
`function.arguments` string (empty included, `typeof` check) appends, and
a still-missing id is synthesised from the name; the result is `Map.set`
into the buffers. -/
def toolFragExisting (buffers : List (Nat × ToolCall)) (tc : KToolFrag) :
    ToolCall :=
  match jsMapGet buffers (tc.index.getD 0) with
  | some e => e
  | none => { id := tc.id.getD "", function := { name := "", arguments := "" } }

def toolFragSetId (tc : KToolFrag) (e : ToolCall) : ToolCall :=
  match tc.id with
  | some s => if s ≠ "" then { e with id := s } else e
  | none => e

def toolFragSetName (tc : KToolFrag) (e : ToolCall) : ToolCall :=
  match tc.function with
  | some f =>
    match f.name with
    | some n => if n ≠ "" then { e with function := { e.function with name := n } } else e
    | none => e
  | none => e

def toolFragAppendArgs (tc : KToolFrag) (e : ToolCall) : ToolCall :=
  match tc.function with
  | some f =>
    match f.arguments with
    | some a =>
      { e with function := { e.function with arguments := e.function.arguments ++ a } }
    | none => e
  | none => e

def toolFragSynthId (index : Nat) (e : ToolCall) : ToolCall :=
  if e.id = "" ∧ e.function.name ≠ "" then
    { e with id := "functions." ++ e.function.name ++ ":" ++ toString index }
  else e

def applyToolFragEntry (buffers : List (Nat × ToolCall)) (tc : KToolFrag) :
    ToolCall :=
  toolFragSynthId (tc.index.getD 0)
    (toolFragAppendArgs tc (toolFragSetName tc (toolFragSetId tc
      (toolFragExisting buffers tc))))

def applyToolFrag (buffers : List (Nat × ToolCall)) (tc : KToolFrag) :
    List (Nat × ToolCall) :=
  jsMapSet buffers (tc.index.getD 0) (applyToolFragEntry buffers tc)

inductive KLine where
  | other (raw : String)
  | malformed (raw : String)
  | done
  | chunk (c : KChunk)
deriving Repr, DecidableEq

/-- What the wrapped stream enqueues: a raw forwarded line, a re-serialised
parsed chunk, the synthesised final tool-calls chunk (whose `delta` is
`{tool_calls: repaired}` with `finish_reason:"tool_calls"`), or the
`data: [DONE]` terminator. -/
inductive KOut where
  | raw (line : String)
  | chunkOut (c : KChunk)
  | synth (toolCalls : List ToolCall)
  | doneOut
deriving Repr, DecidableEq

structure KState where
  toolCallBuffers : List (Nat × ToolCall)
  finalized : Bool
deriving Repr, DecidableEq

def insertByKey (p : Nat × ToolCall) :
    List (Nat × ToolCall) → List (Nat × ToolCall)
  | [] => [p]
  | q :: rest => if p.1 ≤ q.1 then p :: q :: rest else q :: insertByKey p rest

/-- `Array.from(map.entries()).sort((a, b) => aIndex - bIndex)`; keys of a
`Map` are distinct, so any ascending sort agrees with the source. -/
def sortToolEntries (l : List (Nat × ToolCall)) : List (Nat × ToolCall) :=
  l.foldr insertByKey []

def kimiFlush (assemble : Bool) (base : Nat) (st : KState) :
    KState × List KOut :=
  if !assemble || st.finalized || st.toolCallBuffers.isEmpty then (st, [])
  else
    let toolCalls := (sortToolEntries st.toolCallBuffers).map Prod.snd
    let repaired := repairOrNormalizeToolCalls kimiDefaultIdOptions base toolCalls
    ({ st with finalized := true }, [.synth repaired])

def kimiProcessLine (assemble : Bool) (base : Nat) (st : KState) :
    KLine → KState × List KOut
  | .other raw => (st, [.raw raw])
  | .malformed raw => (st, [.raw raw])
  | .done =>
    let p := kimiFlush assemble base st
    (p.1, p.2 ++ [.doneOut])
  | .chunk c =>
    if !assemble then (st, [.chunkOut c])
    else
      match (c.choice.bind (fun ch => ch.delta)).bind (fun d => d.tool_calls) with
      | some tcs =>
        ({ st with toolCallBuffers := tcs.foldl applyToolFrag st.toolCallBuffers },
          [.chunkOut c])
      | none =>
        if c.choice.bind (fun ch => ch.finish_reason) = some "tool_calls" then
          let p := kimiFlush assemble base st
          (p.1, p.2 ++ [.chunkOut c])
        else (st, [.chunkOut c])

def kimiRunAux (assemble : Bool) (base : Nat) :
    KState → List KLine → KState × List KOut
  | st, [] => kimiFlush assemble base st
  | st, l :: ls =>
    let p := kimiProcessLine assemble base st l
    let q := kimiRunAux assemble base p.1 ls
    (q.1, p.2 ++ q.2)

def kimiInitialState : KState := { toolCallBuffers := [], finalized := false }

def kimiRun (assemble : Bool) (base : Nat) (lines : List KLine) : List KOut :=
  (kimiRunAux assemble base kimiInitialState lines).2

def synthCount (outs : List KOut) : Nat :=
  outs.countP (fun o => match o with | .synth _ => true | _ => false)

/-! Scenario S3 of the spec: three tool-call fragments, a
`finish_reason:"tool_calls"` chunk, then `[DONE]`. -/

def s3frag1 : KChunk :=
  ⟨some ⟨some ⟨some [⟨some 0, some "c", some ⟨some "get_weather", some ""⟩⟩]⟩, none⟩⟩

def s3frag2 : KChunk :=
  ⟨some ⟨some ⟨some [⟨some 0, none, some ⟨none, some "\x7b\"location\":\"Beijing\"\x7d"⟩⟩]⟩, none⟩⟩

def s3frag3 : KChunk :=
  ⟨some ⟨some ⟨some [⟨some 0, some "functions.get_weather:0", none⟩]⟩, none⟩⟩

def s3frag4 : KChunk := ⟨some ⟨none, some "tool_calls"⟩⟩

def s3Lines : List KLine :=
  [.chunk s3frag1, .chunk s3frag2, .chunk s3frag3, .chunk s3frag4, .done]

def s3AssembledCall : ToolCall :=
  ⟨"functions.get_weather:0", ⟨"get_weather", "\x7b\"location\":\"Beijing\"\x7d"⟩⟩

/-! ## Provider service (src/services/provider.ts)

`ProviderService` holds two JavaScript `Map`s.  `LLMProviderRec` keeps the
fields `registerProvider` and `resolveModelRoute` read (`name`, `models`);
`baseUrl`, `apiKey` and the transformer chain do not influence routing. -/

structure ModelRoute where
  provider : String
  model : String
  fullModel : String
deriving Repr, DecidableEq

structure LLMProviderRec where
  name : String
  models : List String
deriving Repr, DecidableEq

structure ProviderService where
  providers : List (String × LLMProviderRec)
  modelRoutes : List (String × ModelRoute)
deriving Repr, DecidableEq

/-- `registerProvider` (source lines 100-121): store the provider record,
then for each model unconditionally set the `provider,model` route and set
the bare-`model` route only when that key is still absent
(`registerModelRoute` is the body of the `request.models.forEach`). -/
def registerModelRoute (name : String) (s : ProviderService) (model : String) :
    ProviderService :=
  if (jsMapGet (jsMapSet s.modelRoutes (name ++ "," ++ model) ⟨name, model, name ++ "," ++ model⟩) model).isSome then
    { s with modelRoutes := jsMapSet s.modelRoutes (name ++ "," ++ model) ⟨name, model, name ++ "," ++ model⟩ }
  else
    { s with modelRoutes := jsMapSet (jsMapSet s.modelRoutes (name ++ "," ++ model) ⟨name, model, name ++ "," ++ model⟩) model ⟨name, model, name ++ "," ++ model⟩ }

def registerProvider (svc : ProviderService) (request : LLMProviderRec) :
    ProviderService :=
  let svc := { svc with providers := jsMapSet svc.providers request.name request }
  request.models.foldl (registerModelRoute request.name) svc

structure RequestRouteInfo where
  provider : LLMProviderRec
  originalModel : String
  targetModel : String
deriving Repr, DecidableEq

/-- `resolveModelRoute` (source lines 196-212). -/
def resolveModelRoute (svc : ProviderService) (modelName : String) :
    Option RequestRouteInfo :=
  match jsMapGet svc.modelRoutes modelName with
  | none => none
  | some route =>
    match jsMapGet svc.providers route.provider with
    | none => none
    | some provider => some ⟨provider, modelName, route.model⟩

def emptyProviderService : ProviderService := ⟨[], []⟩

def buildProviderService (ps : List LLMProviderRec) : ProviderService :=
  ps.foldl registerProvider emptyProviderService

/-! ## Server model/provider middleware (src/server.ts:141-161)

`const [provider, model] = body.model.split(",")` splits on *every* comma
and the destructuring keeps the first two segments; `body.model` is then
assigned the second segment (JavaScript `undefined`, embedded `none`, when
the identifier has no comma).  An absent or empty (falsy) `body.model`
answers 400 before the split. -/

inductive MiddlewareResult where
  | badRequest (message : String)
  | okRouted (provider : Option String) (model : Option String)
deriving Repr, DecidableEq

/-- JavaScript `s.split(",")`: split on every comma, keeping empty
segments; `"".split(",")` is `[""]`. -/
def jsSplitComma : List Char → List (List Char)
  | [] => [[]]
  | c :: rest =>
    if c = ',' then [] :: jsSplitComma rest
    else
      match jsSplitComma rest with
      | s :: ss => (c :: s) :: ss
      | [] => [[c]]

def modelProviderMiddleware (bodyModel : Option String) : MiddlewareResult :=
  match bodyModel with
  | none => .badRequest "Missing model in request body"
  | some m =>
    if m = "" then .badRequest "Missing model in request body"
    else
      let parts := (jsSplitComma m.data).map (fun l => (⟨l⟩ : String))
      .okRouted parts[0]? parts[1]?

/-- The rewrite of the model field as the *claim* words it: `the full
remainder after that comma, or the unchanged identifier when no comma is
present`.  Defined from the claim for comparison with the source's
behaviour. -/
def claimBareModel (m : String) : String :=
  match m.data.dropWhile (· != ',') with
  | [] => m
  | _ :: rest => ⟨rest⟩

/-- Modelled from the spec: `A miss yields a 400 error with kind
unknown_model.`  The HTTP layer that raises this error (`services/llm`,
`api/routes`) is not part of the repository snapshot — only
`resolveModelRoute`, which it calls, is — so the error emission follows
the spec's sentence: a `null` route becomes a 400 `unknown_model` error
and no upstream call is made. -/
inductive RouteOutcome where
  | success (info : RequestRouteInfo)
  | httpError (status : Nat) (kind : String)
deriving Repr, DecidableEq

def resolveOrUnknownModel (svc : ProviderService) (modelName : String) :
    RouteOutcome :=
  match resolveModelRoute svc modelName with
  | some info => .success info
  | none => .httpError 400 "unknown_model"

/-! ## Environment-variable resolution (`resolveEnvVars`)

Source: the env-resolver utility module (src/unnamed/part_010, lines
697-733).  The anchored pattern is `^\$\{?([A-Z0-9_]+)\}?$`: a dollar
sign, an *independently optional* opening brace, one or more characters
from `[A-Z0-9_]`, an *independently optional* closing brace, end of
string.  Since `{` and `}` are outside the character class, a match
exists iff the string is `$`, an optional `{`, a maximal non-empty run of
name characters, then nothing or a single `}`; greediness with the `$`
anchor forces the capture to be that maximal run.  The environment is a
function `String → Option String`; `process.env[name]` that is unset is
`none`.  The source tests the resolved value with `if (!resolved)`, so a
variable set to the empty string is treated like an unset one. -/

def isEnvNameChar (c : Char) : Bool :=
  c.isUpper || c.isDigit || c == '_'

/-- `value.match(/^\$\{?([A-Z0-9_]+)\}?$/)`, returning the capture. -/
def envVarExactMatch (s : String) : Option String :=
  match s.data with
  | [] => none
  | c0 :: rest =>
    if c0 = '$' then
      let rest1 :=
        match rest with
        | c1 :: r => if c1 = '\x7b' then r else rest
        | [] => rest
      let nm := rest1.takeWhile isEnvNameChar
      if nm.isEmpty then none
      else
        match rest1.dropWhile isEnvNameChar with
        | [] => some ⟨nm⟩
        | [c2] => if c2 = '\x7d' then some ⟨nm⟩ else none
        | _ => none
    else none

/-- The source's error message, with the quotes around the variable name
elided. -/
def envMissingMessage (varName : String) : String :=
  "Environment variable " ++ varName ++ " is not set. " ++
    "Please set " ++ varName ++ " in your environment or .env file."

/-- `resolveEnvVars` with the default options
(`resolveEnvVariables = true`, `throwOnMissing = true`). -/
def resolveEnvVars (env : String → Option String) (value : String) :
    Except String String :=
  match envVarExactMatch value with
  | none => .ok value
  | some varName =>
    match env varName with
    | some v =>
      if v = "" then .error (envMissingMessage varName) else .ok v
    | none => .error (envMissingMessage varName)

/-! ## String primitives shared by the remaining embeddings

Explicit char-list versions of the JavaScript string operations the
sources use (`startsWith`, `substring`, `trim`, `includes`,
`replace(pat, "")` on its first occurrence).  The token arguments in this
repository are ASCII, so JavaScript's UTF-16 index arithmetic coincides
with character counts. -/

def optTruthy (o : Option String) : Bool :=
  match o with | some s => s != "" | none => false

def optFalsy (o : Option String) : Bool :=
  match o with | none => true | some s => s == ""

def sStartsWith (s pat : String) : Bool :=
  pat.data.isPrefixOf s.data

def sDropChars (s : String) (n : Nat) : String :=
  ⟨s.data.drop n⟩

def sTrim (s : String) : String :=
  ⟨((s.data.dropWhile Char.isWhitespace).reverse.dropWhile Char.isWhitespace).reverse⟩

/-- First occurrence of `pat` in a char list: `some (pre, post)` with the
text split around the occurrence. -/
def findSubAux (pat : List Char) : List Char → Option (List Char × List Char)
  | [] => if pat.isEmpty then some ([], []) else none
  | c :: rest =>
    if pat.isPrefixOf (c :: rest) then some ([], (c :: rest).drop pat.length)
    else
      match findSubAux pat rest with
      | some p => some (c :: p.1, p.2)
      | none => none

def sContains (s pat : String) : Bool :=
  (findSubAux pat.data s.data).isSome

/-- `s.replace(pat, "")`: JavaScript `String.prototype.replace` with a
string pattern replaces only the first occurrence. -/
def sReplaceFirst (s pat : String) : String :=
  match findSubAux pat.data s.data with
  | some p => ⟨p.1 ++ p.2⟩
  | none => s

/-! ## Reasoning transformer (src/transformer/reasoning.transformer.ts:12-108)

`transformRequestOut` with the constructor default `enable = true`.
`RRequest` keeps the fields the hook reads; a message `content` of `none`
embeds non-string content. -/

structure RThinking where
  type : String
deriving Repr, DecidableEq

structure RReasoning where
  max_tokens : Option Int
  effort : Option String
deriving Repr, DecidableEq

structure RMessage where
  role : String
  content : Option String
deriving Repr, DecidableEq

structure RRequest where
  messages : List RMessage
  reasoning_effort : Option String
  verbosity : Option String
  thinking : Option RThinking
  enable_thinking : Bool
  reasoning : Option RReasoning
deriving Repr, DecidableEq

/-- `Object.entries(tokenMap)` in insertion order:
token, `reasoning_effort`, `verbosity`. -/
def tokenMap : List (String × String × String) :=
  [("Quick:", "low", "low"), ("Deep:", "high", "medium"),
   ("Explain:", "medium", "high"), ("Brief:", "medium", "low")]

def hashtagMap : List (String × String × String) :=
  [("#quick", "low", "low"), ("#deep", "high", "medium"),
   ("#explain", "medium", "high"), ("#brief", "medium", "low")]

/-- `if (!request.field) request.field = v` -/
def fillIfUnset (cur : Option String) (v : String) : Option String :=
  if optFalsy cur then some v else cur

/-- The prefix-token loop: the first table entry whose token starts the
content fires, fills unset fields, and replaces the working content by
`content.substring(token.length).trim()`. -/
def runTokenPass (req : RRequest) (content : String) :
    RRequest × String × Bool :=
  match tokenMap.find? (fun t => sStartsWith content t.1) with
  | some t =>
    ({ req with
        reasoning_effort := fillIfUnset req.reasoning_effort t.2.1,
        verbosity := fillIfUnset req.verbosity t.2.2 },
      sTrim (sDropChars content t.1.length), true)
  | none => (req, content, false)

/-- The hashtag loop: membership is tested on the *original* content, the
replacement happens on the working content
(`updatedContent.replace(hashtag, "").trim()`). -/
def runHashtagPass (req : RRequest) (content updatedContent : String)
    (found : Bool) : RRequest × String × Bool :=
  match hashtagMap.find? (fun t => sContains content t.1) with
  | some t =>
    ({ req with
        reasoning_effort := fillIfUnset req.reasoning_effort t.2.1,
        verbosity := fillIfUnset req.verbosity t.2.2 },
      sTrim (sReplaceFirst updatedContent t.1), true)
  | none => (req, updatedContent, found)

def setLastContent : List RMessage → String → List RMessage
  | [], _ => []
  | [m], c => [{ m with content := some c }]
  | m :: rest, c => m :: setLastContent rest c

/-- Lines 77-82: note the source assigns `reasoning_effort = "medium"`
*unconditionally* when thinking is enabled. -/
def normalizeThinking (req : RRequest) : RRequest :=
  if (match req.thinking with | some t => t.type == "enabled" | none => false)
      || req.enable_thinking then
    { req with reasoning_effort := some "medium", thinking := none,
               enable_thinking := false }
  else req

/-- Lines 85-104: `'max_tokens' in reasoning` then `'effort' in reasoning`;
the `reasoning` object is deleted in every branch. -/
def normalizeReasoning (req : RRequest) : RRequest :=
  match req.reasoning with
  | some r =>
    match r.max_tokens with
    | some mt =>
      let eff := if mt > 1000 then "high" else if mt > 500 then "medium" else "minimal"
      { req with reasoning_effort := some eff, reasoning := none }
    | none =>
      match r.effort with
      | some e => { req with reasoning_effort := some e, reasoning := none }
      | none => { req with reasoning := none }
  | none => req

def reasoningTransformRequestOut (req : RRequest) : RRequest :=
  let req1 :=
    match req.messages.getLast? with
    | some lastMsg =>
      if lastMsg.role == "user" then
        match lastMsg.content with
        | some content =>
          let p1 := runTokenPass req content
          let p2 := runHashtagPass p1.1 content p1.2.1 p1.2.2
          if p2.2.2 then
            { p2.1 with messages := setLastContent p2.1.messages p2.2.1 }
          else p2.1
        | none => req
      else req
    | none => req
  normalizeReasoning (normalizeThinking req1)

/-! ## Role-tool request validation
(Kimi `transformRequestIn`, src/transformer/kimi.transformer.ts:110-131;
MiniMax-M2 `transformRequestIn`, src/unnamed/part_004 lines 126-149 — the
two loops are textually identical, the MiniMax version operating on a
shallow copy.) -/

structure VMessage where
  role : String
  content : Option String
  tool_call_id : Option String
deriving Repr, DecidableEq

structure VRequest where
  messages : List VMessage
  hasTools : Bool
  tool_choice : Option String
deriving Repr, DecidableEq

def kimiTransformRequestIn (acceptRoleTool : Bool) (req : VRequest) :
    Except String VRequest :=
  let req :=
    if req.hasTools ∧ optFalsy req.tool_choice then
      { req with tool_choice := some "auto" }
    else req
  if acceptRoleTool then
    match req.messages.find?
        (fun m => m.role == "tool" && (optFalsy m.tool_call_id || optFalsy m.content)) with
    | some _ => .error "Tool messages must have tool_call_id and content"
    | none => .ok req
  else .ok req

def miniMaxM2TransformRequestIn (acceptRoleTool : Bool) (req : VRequest) :
    Except String VRequest :=
  let req :=
    if req.hasTools ∧ optFalsy req.tool_choice then
      { req with tool_choice := some "auto" }
    else req
  if acceptRoleTool then
    match req.messages.find?
        (fun m => m.role == "tool" && (optFalsy m.tool_call_id || optFalsy m.content)) with
    | some _ => .error "Tool messages must have tool_call_id and content"
    | none => .ok req
  else .ok req

/-- Modelled from the spec: the error middleware (`src/api/middleware`,
imported by the server but absent from the snapshot) maps
request-validation failures to a 4xx error: `missing/empty required
fields (including tool-message fields when validation is on) ... yield
HTTP 4xx` and `any role=tool message missing tool_call_id or content
fails with kind bad_request`. -/
def errorKindOf (r : Except String VRequest) : Option (Nat × String) :=
  match r with
  | .error _ => some (400, "bad_request")
  | .ok _ => none

/-! ## Anthropic egress state machine
(`convertOpenAIStreamToAnthropic`,
src/transformer/anthropic.transformer.ts:249-933)

The per-response closure is embedded as `AState`; the emitted Anthropic
SSE events as `AEvent` (payloads that the claims do not mention — message
ids, usage numbers, uuids, the accumulated tool-call text — are partly
tracked in the state but not in the events).  Notes on fidelity:
* `isClosed` only becomes true through controller failures, which are
  external to a pure model, and `hasFinished` is declared but never
  assigned in the source, so both guards are constantly false and elided.
* a `finish_reason` chunk executes `break`, which skips the *remaining
  lines of the current read batch* but not later batches; the input is
  therefore a list of batches (each a list of parsed chunks — `[DONE]`,
  non-`data:` lines and unparseable payloads are skipped by `continue`).
* `Date.now()` in the provisional tool ids is the parameter `ts`.
* `delta.annotations` is embedded as `annots` (list of title/url pairs);
  `delta.tool_calls` entries have the same observed shape as the Kimi
  fragments and reuse `KToolFrag`. -/

inductive ABlockKind where
  | thinkingB | textB | webSearchB | toolUseB
deriving Repr, DecidableEq

inductive ADeltaKind where
  | thinkingDelta | signatureDelta | textDelta | inputJsonDelta
deriving Repr, DecidableEq

inductive AEvent where
  | messageStart
  | blockStart (index : Int) (kind : ABlockKind)
  | blockDelta (index : Int) (kind : ADeltaKind)
  | blockStop (index : Int)
  | messageDelta (stopReason : String)
  | messageStop
  | errorEvt
deriving Repr, DecidableEq

structure AThinking where
  content : Option String
  signature : Option String
deriving Repr, DecidableEq

structure ADelta where
  thinking : Option AThinking
  content : Option String
  annots : Option (List (String × String))
  tool_calls : Option (List KToolFrag)
deriving Repr, DecidableEq

structure AChoice where
  delta : Option ADelta
  finish_reason : Option String
deriving Repr, DecidableEq

structure AChunk where
  error : Bool
  usage : Bool
  choice : Option AChoice
deriving Repr, DecidableEq

structure AToolInfo where
  id : String
  name : String
  arguments : String
deriving Repr, DecidableEq

structure AState where
  hasStarted : Bool
  hasTextContentStarted : Bool
  isThinkingStarted : Bool
  contentChunks : Nat
  toolCallChunks : Nat
  contentIndex : Int
  currentContentBlockIndex : Int
  stopReasonDelta : Option String
  toolCallIndexToContentBlockIndex : List (Nat × Int)
  toolCallsInfo : List (Nat × AToolInfo)
deriving Repr, DecidableEq

def anthropicInitialState : AState :=
  { hasStarted := false, hasTextContentStarted := false,
    isThinkingStarted := false, contentChunks := 0, toolCallChunks := 0,
    contentIndex := 0, currentContentBlockIndex := -1,
    stopReasonDelta := none, toolCallIndexToContentBlockIndex := [],
    toolCallsInfo := [] }

/-- Source lines 498-577: any open block is closed first; a thinking block
is opened unless one was started before; a signature closes the block at
`contentIndex` and advances it, content emits a `thinking_delta` at
`contentIndex`. -/
def processThinking (st : AState) (th : AThinking) : AState × List AEvent :=
  let p :=
    if st.currentContentBlockIndex ≥ 0 then
      ({ st with currentContentBlockIndex := -1 },
        [AEvent.blockStop st.currentContentBlockIndex])
    else (st, ([] : List AEvent))
  let st := p.1
  let q :=
    if !st.isThinkingStarted then
      ({ st with currentContentBlockIndex := st.contentIndex,
                 isThinkingStarted := true },
        p.2 ++ [AEvent.blockStart st.contentIndex .thinkingB])
    else (st, p.2)
  let st := q.1
  if optTruthy th.signature then
    ({ st with currentContentBlockIndex := -1, contentIndex := st.contentIndex + 1 },
      q.2 ++ [AEvent.blockDelta st.contentIndex .signatureDelta,
              AEvent.blockStop st.contentIndex])
  else if optTruthy th.content then
    (st, q.2 ++ [AEvent.blockDelta st.contentIndex .thinkingDelta])
  else (st, q.2)

/-- Source lines 579-639: a non-text open block is closed (the check uses
the `hasTextContentStarted` flag); a text block is started at
`contentIndex` — which is *not* advanced — unless one was started before;
the `text_delta` is emitted at `currentContentBlockIndex`. -/
def processTextDelta (st : AState) : AState × List AEvent :=
  let st := { st with contentChunks := st.contentChunks + 1 }
  let p :=
    if st.currentContentBlockIndex ≥ 0 ∧ ¬ st.hasTextContentStarted then
      ({ st with currentContentBlockIndex := -1 },
        [AEvent.blockStop st.currentContentBlockIndex])
    else (st, ([] : List AEvent))
  let st := p.1
  let q :=
    if !st.hasTextContentStarted then
      ({ st with hasTextContentStarted := true,
                 currentContentBlockIndex := st.contentIndex },
        p.2 ++ [AEvent.blockStart st.contentIndex .textB])
    else (st, p.2)
  let st := q.1
  (st, q.2 ++ [AEvent.blockDelta st.currentContentBlockIndex .textDelta])

/-- Source lines 641-701: a *text* open block is closed; each item opens
and immediately closes a fresh `web_search_tool_result` block at the
pre-incremented `contentIndex`. -/
def processAnnots (st : AState) (items : List (String × String)) :
    AState × List AEvent :=
  let p :=
    if st.currentContentBlockIndex ≥ 0 ∧ st.hasTextContentStarted then
      ({ st with currentContentBlockIndex := -1, hasTextContentStarted := false },
        [AEvent.blockStop st.currentContentBlockIndex])
    else (st, ([] : List AEvent))
  items.foldl
    (fun acc _ =>
      let st := acc.1
      let idx := st.contentIndex + 1
      ({ st with contentIndex := idx, currentContentBlockIndex := -1 },
        acc.2 ++ [AEvent.blockStart idx .webSearchB, AEvent.blockStop idx]))
    p

/-- Source lines 703-843, the body of the `for` over `delta.tool_calls`
(the accumulator's third component is the `processedInThisChunk` set). -/
def processToolFrag (ts : String) (acc : AState × List AEvent × List Nat)
    (tc : KToolFrag) : AState × List AEvent × List Nat :=
  let st := acc.1
  let evs := acc.2.1
  let processed := acc.2.2
  let toolCallIndex := tc.index.getD 0
  if toolCallIndex ∈ processed then acc
  else
    let processed := toolCallIndex :: processed
    let p :=
      if (jsMapGet st.toolCallIndexToContentBlockIndex toolCallIndex).isNone then
        let q :=
          if st.currentContentBlockIndex ≥ 0 then
            ({ st with currentContentBlockIndex := -1 },
              evs ++ [AEvent.blockStop st.currentContentBlockIndex])
          else (st, evs)
        let st := q.1
        let newContentBlockIndex := st.contentIndex
        let toolCallId :=
          match tc.id with
          | some s => if s ≠ "" then s else "call_" ++ ts ++ "_" ++ toString toolCallIndex
          | none => "call_" ++ ts ++ "_" ++ toString toolCallIndex
        let toolCallName :=
          match tc.function.bind (·.name) with
          | some s => if s ≠ "" then s else "tool_" ++ toString toolCallIndex
          | none => "tool_" ++ toString toolCallIndex
        ({ st with
            toolCallIndexToContentBlockIndex :=
              jsMapSet st.toolCallIndexToContentBlockIndex toolCallIndex newContentBlockIndex,
            contentIndex := newContentBlockIndex + 1,
            currentContentBlockIndex := newContentBlockIndex,
            toolCallsInfo :=
              jsMapSet st.toolCallsInfo toolCallIndex ⟨toolCallId, toolCallName, ""⟩ },
          q.2 ++ [AEvent.blockStart newContentBlockIndex .toolUseB])
      else if optTruthy tc.id ∧ optTruthy (tc.function.bind (·.name)) then
        match jsMapGet st.toolCallsInfo toolCallIndex with
        | some info =>
          if sStartsWith info.id "call_" ∧ sStartsWith info.name "tool_" then
            let upgraded : AToolInfo :=
              { info with id := tc.id.getD "",
                          name := (tc.function.bind (·.name)).getD "" }
            ({ st with toolCallsInfo := jsMapSet st.toolCallsInfo toolCallIndex upgraded },
              evs)
          else (st, evs)
        | none => (st, evs)
      else (st, evs)
    let st := p.1
    let evs := p.2
    if optTruthy (tc.function.bind (·.arguments)) then
      match jsMapGet st.toolCallIndexToContentBlockIndex toolCallIndex with
      | none => (st, evs, processed)
      | some blockIndex =>
        let st :=
          match jsMapGet st.toolCallsInfo toolCallIndex with
          | some info =>
            let grown : AToolInfo :=
              { info with arguments :=
                  info.arguments ++ ((tc.function.bind (·.arguments)).getD "") }
            { st with toolCallsInfo := jsMapSet st.toolCallsInfo toolCallIndex grown }
          | none => st
        (st, evs ++ [AEvent.blockDelta blockIndex .inputJsonDelta], processed)
    else (st, evs, processed)

def anthropicStopReasonMapping (fr : String) : String :=
  if fr == "stop" then "end_turn"
  else if fr == "length" then "max_tokens"
  else if fr == "tool_calls" then "tool_use"
  else if fr == "content_filter" then "stop_sequence"
  else "end_turn"

/-- One parsed chunk (source lines 411-895).  The third component is the
`break` flag of the `finish_reason` branch. -/
def processChunk (ts : String) (st : AState) (ck : AChunk) :
    AState × List AEvent × Bool :=
  if ck.error then (st, [AEvent.errorEvt], false)
  else
    let p :=
      if !st.hasStarted then
        ({ st with hasStarted := true }, [AEvent.messageStart])
      else (st, ([] : List AEvent))
    let st := p.1
    let st :=
      if ck.usage then
        match st.stopReasonDelta with
        | none => { st with stopReasonDelta := some "end_turn" }
        | some _ => st
      else st
    match ck.choice with
    | none => (st, p.2, false)
    | some choice =>
      let q1 :=
        match choice.delta.bind (·.thinking) with
        | some th =>
          let r := processThinking st th
          (r.1, p.2 ++ r.2)
        | none => (st, p.2)
      let st := q1.1
      let q2 :=
        if optTruthy (choice.delta.bind (·.content)) then
          let r := processTextDelta st
          (r.1, q1.2 ++ r.2)
        else (st, q1.2)
      let st := q2.1
      let q3 :=
        match choice.delta.bind (·.annots) with
        | some items =>
          if !items.isEmpty then
            let r := processAnnots st items
            (r.1, q2.2 ++ r.2)
          else (st, q2.2)
        | none => (st, q2.2)
      let st := q3.1
      let q4 :=
        match choice.delta.bind (·.tool_calls) with
        | some tcs =>
          let st := { st with toolCallChunks := st.toolCallChunks + 1 }
          let r := tcs.foldl (processToolFrag ts) (st, q3.2, [])
          (r.1, r.2.1)
        | none => (st, q3.2)
      let st : AState := q4.1
      if optTruthy choice.finish_reason then
        let r : AState × List AEvent :=
          if st.currentContentBlockIndex ≥ 0 then
            ({ st with currentContentBlockIndex := -1 },
              q4.2 ++ [AEvent.blockStop st.currentContentBlockIndex])
          else (st, q4.2)
        let st := r.1
        let mapped := anthropicStopReasonMapping ((choice.finish_reason).getD "")
        ({ st with stopReasonDelta := some mapped }, r.2, true)
      else (st, q4.2, false)

/-- One read batch; `break` skips the batch's remaining chunks. -/
def processBatch (ts : String) : AState → List AChunk → AState × List AEvent
  | st, [] => (st, [])
  | st, ck :: rest =>
    let p := processChunk ts st ck
    if p.2.2 then (p.1, p.2.1)
    else
      let q := processBatch ts p.1 rest
      (q.1, p.2.1 ++ q.2)

/-- `safeClose` (source lines 304-373): close a remaining open block, then
the pending `message_delta` (default `end_turn`), then `message_stop`. -/
def anthropicSafeClose (st : AState) : List AEvent :=
  (if st.currentContentBlockIndex ≥ 0 then
    [AEvent.blockStop st.currentContentBlockIndex]
  else []) ++
  [AEvent.messageDelta (st.stopReasonDelta.getD "end_turn"), AEvent.messageStop]

def convertOpenAIStreamToAnthropic (ts : String)
    (batches : List (List AChunk)) : List AEvent :=
  let p := batches.foldl
    (fun acc batch =>
      let q := processBatch ts acc.1 batch
      (q.1, acc.2 ++ q.2))
    (anthropicInitialState, ([] : List AEvent))
  p.2 ++ anthropicSafeClose p.1

/-! The failing input for the block-index claim: a text delta, then a
tool-call delta, then a `finish_reason` chunk (each its own read). -/

def c1TextDelta : ADelta :=
  { thinking := none, content := some "Hello", annots := none,
    tool_calls := none }

def c1TextChunk : AChunk :=
  { error := false, usage := false,
    choice := some { delta := some c1TextDelta, finish_reason := none } }

def c1ToolDelta : ADelta :=
  { thinking := none, content := none, annots := none,
    tool_calls := some [⟨some 0, some "call_1",
      some ⟨some "get_weather", some "\x7b\x7d"⟩⟩] }

def c1ToolChunk : AChunk :=
  { error := false, usage := false,
    choice := some { delta := some c1ToolDelta, finish_reason := none } }

def c1FinishChunk : AChunk :=
  { error := false, usage := false,
    choice := some { delta := none, finish_reason := some "tool_calls" } }

def c1FailingBatches : List (List AChunk) :=
  [[c1TextChunk], [c1ToolChunk], [c1FinishChunk]]

/-- The number of `content_block_start` events carrying a given index. -/
def blockStartCount (evs : List AEvent) (i : Int) : Nat :=
  evs.countP (fun e => match e with
    | .blockStart j _ => j == i
    | _ => false)

/-! ## Derived observations used by the theorem statements -/

/-- The arguments fragment a tool-call delta contributes (empty when the
fragment carries no `function.arguments` string). -/
def fragArgText (f : KToolFrag) : String :=
  ((f.function.bind (·.arguments)).getD "")

/-- The accumulated `function.arguments` of the buffer entry at `i`. -/
def bufferArgsAt (buffers : List (Nat × ToolCall)) (i : Nat) : String :=
  match jsMapGet buffers i with
  | some c => c.function.arguments
  | none => ""

/-- Concatenation of a list of strings in order. -/
def concatStrings (l : List String) : String :=
  l.foldr (· ++ ·) ""

/-- The tool-call fragments a line feeds into the assembly buffers. -/
def lineToolFrags : KLine → List KToolFrag
  | .chunk c => ((c.choice.bind (·.delta)).bind (·.tool_calls)).getD []
  | _ => []

/-- Every route key `registerProvider` can create for the providers `ps`:
bare model names and `provider,model` pairs. -/
def advertisedNames (ps : List LLMProviderRec) : List String :=
  ps.foldr
    (fun p acc => p.models ++ p.models.map (fun m => p.name ++ "," ++ m) ++ acc)
    []

/-! # Theorems

Shared helper lemmas first, then one theorem per claim (with its witness
or counterexample where required). -/

theorem jsMapGet_nil {κ α : Type} [BEq κ] (k : κ) :
    jsMapGet ([] : List (κ × α)) k = none := rfl

theorem jsMapGet_set_self {κ α : Type} [BEq κ] [LawfulBEq κ]
    (m : List (κ × α)) (k : κ) (v : α) :
    jsMapGet (jsMapSet m k v) k = some v := by
  unfold jsMapSet jsMapGet
  split
  · rename_i hsome
    obtain ⟨q, hq⟩ := Option.isSome_iff_exists.mp hsome
    have hcomp : ((fun p : κ × α => p.1 == k) ∘ (fun p => if p.1 == k then (k, v) else p))
        = fun p : κ × α => p.1 == k := by
      funext a
      by_cases ha : (a.1 == k) = true <;> simp [ha]
    rw [List.find?_map, hcomp, hq]
    have hqk := List.find?_some hq
    simp only at hqk
    simp [hqk]
  · rename_i hnone
    have hn : m.find? (fun p => p.1 == k) = none :=
      Option.not_isSome_iff_eq_none.mp hnone
    rw [List.find?_append, hn]
    simp

theorem jsMapGet_set_ne {κ α : Type} [BEq κ] [LawfulBEq κ]
    (m : List (κ × α)) (k1 k2 : κ) (v : α) (h : k1 ≠ k2) :
    jsMapGet (jsMapSet m k1 v) k2 = jsMapGet m k2 := by
  unfold jsMapSet jsMapGet
  split
  · have hcomp : ((fun p : κ × α => p.1 == k2) ∘ (fun p => if p.1 == k1 then (k1, v) else p))
        = fun p : κ × α => p.1 == k2 := by
      funext a
      by_cases ha : (a.1 == k1) = true
      · have : a.1 = k1 := eq_of_beq ha
        subst this
        simp [ha, h]
      · simp [ha]
    rw [List.find?_map, hcomp]
    cases hq : m.find? (fun p : κ × α => p.1 == k2) with
    | none => simp
    | some q =>
      have hqk := List.find?_some hq
      simp only at hqk
      have hne : q.1 ≠ k1 := by
        have : q.1 = k2 := eq_of_beq hqk
        simp [this]
        exact fun hh => h hh.symm
      simp [Option.map_map, beq_eq_false_iff_ne.mpr hne]
  · rw [List.find?_append]
    have hk : ((k1, v).1 == k2) = false := by
      simpa using h
    simp [List.find?, hk]

/-- C1: the failing input for the block-bracketing/index claim.  On a
stream with a text delta, then a tool-call delta, then `finish_reason`,
the machine emits `content_block_start(0)` for the text block, closes it,
and then emits `content_block_start(0)` *again* for the tool_use block:
`contentIndex` is not advanced when a text block opens, so the index 0 is
reused, contradicting `content-block indices are assigned in open order
and never reused`.  The per-start bracketing is intact on this run (each
start is followed by exactly one matching stop), but the index-freshness
part of the claim fails on exactly the scenario the claim names. -/
theorem anthropic_stream_reuses_block_index_on_text_then_tool :
    convertOpenAIStreamToAnthropic "0" c1FailingBatches =
      [AEvent.messageStart,
       AEvent.blockStart 0 .textB, AEvent.blockDelta 0 .textDelta,
       AEvent.blockStop 0,
       AEvent.blockStart 0 .toolUseB, AEvent.blockDelta 0 .inputJsonDelta,
       AEvent.blockStop 0,
       AEvent.messageDelta "tool_use", AEvent.messageStop] ∧
    blockStartCount (convertOpenAIStreamToAnthropic "0" c1FailingBatches) 0 = 2 := by
  constructor <;> rfl

/-- C2 (counterexample): the claim says the synthesised final chunk is
emitted *after* the fourth fragment (the `finish_reason:"tool_calls"`
chunk) and before `data: [DONE]`; the stream the claim describes would
therefore be the four forwarded fragments, then the synthesised chunk,
then the terminator.  The code flushes *before* forwarding the
`finish_reason` chunk, so the produced stream differs from the claimed
one. -/
theorem kimi_s3_synth_position_counterexample :
    kimiRun true 0 s3Lines ≠
      [KOut.chunkOut s3frag1, KOut.chunkOut s3frag2, KOut.chunkOut s3frag3,
       KOut.chunkOut s3frag4, KOut.synth [s3AssembledCall], KOut.doneOut] := by
  decide

/-- C2 (amended): on scenario S3 all four fragments are forwarded in
order and exactly one synthesised chunk with the assembled, repaired tool
call (no `index` field exists on the buffered `ToolCall`) is injected —
*between the third fragment and the finish_reason fragment*, before
`data: [DONE]`. -/
theorem kimi_s3_assembled_stream :
    kimiRun true 0 s3Lines =
      [KOut.chunkOut s3frag1, KOut.chunkOut s3frag2, KOut.chunkOut s3frag3,
       KOut.synth [s3AssembledCall], KOut.chunkOut s3frag4, KOut.doneOut] := by
  rfl

/-- C5 (counterexample): `body.model.split(",")` with array destructuring
keeps only the first two segments, so for `a,b,c` the model field becomes
`b`, not the full remainder `b,c` that the claim describes; and for a
comma-free identifier the model field becomes `undefined` (`none`), not
the unchanged identifier. -/
theorem server_model_split_counterexample :
    modelProviderMiddleware (some "a,b,c") =
      .okRouted (some "a") (some "b") ∧
    claimBareModel "a,b,c" = "b,c" ∧ ("b" : String) ≠ "b,c" ∧
    modelProviderMiddleware (some "gpt-5") =
      .okRouted (some "gpt-5") none ∧
    claimBareModel "gpt-5" = "gpt-5" ∧
    (none : Option String) ≠ some "gpt-5" := by
  refine ⟨rfl, rfl, by decide, rfl, rfl, by decide⟩

/-- C6 (counterexample): in `^\$\{?([A-Z0-9_]+)\}?$` each brace is
independently optional, so the lopsided `${OPENAI_KEY` (which exactly
matches neither `$NAME` nor `${NAME}`, since `{` is not a name character)
is still resolved from the environment instead of being returned
unchanged. -/
theorem env_resolver_lopsided_brace_counterexample :
    resolveEnvVars (fun n => if n = "OPENAI_KEY" then some "sk-x" else none)
      "$\x7bOPENAI_KEY" = .ok "sk-x" ∧
    ("sk-x" : String) ≠ "$\x7bOPENAI_KEY" := by
  refine ⟨rfl, by decide⟩

/-- C7 (counterexample): the extractor does not leave all other
characters intact: after stripping the matched prefix token it also
`trim`s the remainder.  Removing exactly `Quick:` from `"Quick: hi "`
leaves `" hi "`, but the code produces `"hi"`. -/
theorem reasoning_token_strip_counterexample :
    (reasoningTransformRequestOut
      ⟨[⟨"user", some "Quick: hi "⟩], none, none, none, false, none⟩).messages =
      [⟨"user", some "hi"⟩] ∧
    sDropChars "Quick: hi " ("Quick:".length) = " hi " ∧
    ("hi" : String) ≠ " hi " := by
  refine ⟨rfl, rfl, by decide⟩

theorem isEnvNameChar_ne_lbrace {c : Char} (h : isEnvNameChar c = true) :
    c ≠ '\x7b' := by
  intro hc
  subst hc
  simp [isEnvNameChar] at h

theorem string_data_ne_nil {X : String} (h : X ≠ "") : X.data ≠ [] := by
  intro hd
  exact h (String.ext (hd.trans rfl))

theorem env_all_mem {X : String} (hall : X.data.all isEnvNameChar = true) :
    ∀ c ∈ X.data, isEnvNameChar c := by
  simpa [List.all_eq_true] using hall

theorem envMatch_dollar (X : String) (hne : X ≠ "")
    (hall : X.data.all isEnvNameChar = true) :
    envVarExactMatch ("$" ++ X) = some X := by
  cases hd : X.data with
  | nil => exact absurd hd (string_data_ne_nil hne)
  | cons x xs =>
    have hmem : ∀ c ∈ x :: xs, isEnvNameChar c := hd ▸ env_all_mem hall
    have hxb : x ≠ '\x7b' :=
      isEnvNameChar_ne_lbrace (hmem x (List.mem_cons_self _ _))
    have htake : (x :: xs).takeWhile isEnvNameChar = x :: xs :=
      List.takeWhile_eq_self_iff.mpr hmem
    have hdrop : (x :: xs).dropWhile isEnvNameChar = [] :=
      List.dropWhile_eq_nil_iff.mpr hmem
    have hs : ("$" ++ X).data = '$' :: x :: xs := by
      rw [String.data_append, hd]
      rfl
    have hXeq : (⟨x :: xs⟩ : String) = X := by rw [← hd]
    calc envVarExactMatch ("$" ++ X) = some ⟨x :: xs⟩ := by
          unfold envVarExactMatch
          rw [hs]
          simp [hxb, htake, hdrop]
      _ = some X := by rw [hXeq]

theorem envMatch_lopen (X : String) (hne : X ≠ "")
    (hall : X.data.all isEnvNameChar = true) :
    envVarExactMatch ("$\x7b" ++ X) = some X := by
  cases hd : X.data with
  | nil => exact absurd hd (string_data_ne_nil hne)
  | cons x xs =>
    have hmem : ∀ c ∈ x :: xs, isEnvNameChar c := hd ▸ env_all_mem hall
    have htake : (x :: xs).takeWhile isEnvNameChar = x :: xs :=
      List.takeWhile_eq_self_iff.mpr hmem
    have hdrop : (x :: xs).dropWhile isEnvNameChar = [] :=
      List.dropWhile_eq_nil_iff.mpr hmem
    have hs : ("$\x7b" ++ X).data = '$' :: '\x7b' :: x :: xs := by
      rw [String.data_append, hd]
      rfl
    have hXeq : (⟨x :: xs⟩ : String) = X := by rw [← hd]
    calc envVarExactMatch ("$\x7b" ++ X) = some ⟨x :: xs⟩ := by
          unfold envVarExactMatch
          rw [hs]
          simp [htake, hdrop]
      _ = some X := by rw [hXeq]

theorem envMatch_braced (X : String) (hne : X ≠ "")
    (hall : X.data.all isEnvNameChar = true) :
    envVarExactMatch ("$\x7b" ++ X ++ "\x7d") = some X := by
  cases hd : X.data with
  | nil => exact absurd hd (string_data_ne_nil hne)
  | cons x xs =>
    have hmem : ∀ c ∈ x :: xs, isEnvNameChar c := hd ▸ env_all_mem hall
    have htake : ((x :: xs) ++ ['\x7d']).takeWhile isEnvNameChar = x :: xs := by
      rw [List.takeWhile_append_of_pos hmem]
      simp [List.takeWhile, isEnvNameChar]
    have hdrop : ((x :: xs) ++ ['\x7d']).dropWhile isEnvNameChar = ['\x7d'] := by
      rw [List.dropWhile_append_of_pos hmem]
      simp [List.dropWhile, isEnvNameChar]
    have hs : ("$\x7b" ++ X ++ "\x7d").data = '$' :: '\x7b' :: ((x :: xs) ++ ['\x7d']) := by
      rw [String.data_append, String.data_append, hd]
      rfl
    have hXeq : (⟨x :: xs⟩ : String) = X := by rw [← hd]
    calc envVarExactMatch ("$\x7b" ++ X ++ "\x7d") = some ⟨x :: xs⟩ := by
          unfold envVarExactMatch
          rw [hs]
          rw [List.cons_append] at htake hdrop
          simp [htake, hdrop, hmem x (List.mem_cons_self _ _)]
      _ = some X := by rw [hXeq]

theorem envMatch_rclose (X : String) (hne : X ≠ "")
    (hall : X.data.all isEnvNameChar = true) :
    envVarExactMatch ("$" ++ X ++ "\x7d") = some X := by
  cases hd : X.data with
  | nil => exact absurd hd (string_data_ne_nil hne)
  | cons x xs =>
    have hmem : ∀ c ∈ x :: xs, isEnvNameChar c := hd ▸ env_all_mem hall
    have hxb : x ≠ '\x7b' :=
      isEnvNameChar_ne_lbrace (hmem x (List.mem_cons_self _ _))
    have htake : ((x :: xs) ++ ['\x7d']).takeWhile isEnvNameChar = x :: xs := by
      rw [List.takeWhile_append_of_pos hmem]
      simp [List.takeWhile, isEnvNameChar]
    have hdrop : ((x :: xs) ++ ['\x7d']).dropWhile isEnvNameChar = ['\x7d'] := by
      rw [List.dropWhile_append_of_pos hmem]
      simp [List.dropWhile, isEnvNameChar]
    have hs : ("$" ++ X ++ "\x7d").data = '$' :: ((x :: xs) ++ ['\x7d']) := by
      rw [String.data_append, String.data_append, hd]
      rfl
    have hXeq : (⟨x :: xs⟩ : String) = X := by rw [← hd]
    calc envVarExactMatch ("$" ++ X ++ "\x7d") = some ⟨x :: xs⟩ := by
          unfold envVarExactMatch
          rw [hs]
          rw [List.cons_append] at htake hdrop
          simp [hxb, htake, hdrop, hmem x (List.mem_cons_self _ _)]
      _ = some X := by rw [hXeq]

/-- C6 (amended): the resolver substitutes exactly the strings accepted by
`^\$\{?([A-Z0-9_]+)\}?$`, in which *each brace is independently optional*:
`$X`, `${X}`, and also the lopsided `${X` and `$X}` resolve for a set,
non-empty-valued variable (the source's `!resolved` check treats a
variable set to the empty string as unset); an unset variable raises an
error naming it; a string that does not match the pattern — such as one
merely containing `$` — is returned unchanged. -/
theorem env_resolver_amended :
    (∀ (env : String → Option String) (X v : String),
      X ≠ "" → X.data.all isEnvNameChar = true → env X = some v → v ≠ "" →
      resolveEnvVars env ("$" ++ X) = .ok v ∧
      resolveEnvVars env ("$\x7b" ++ X ++ "\x7d") = .ok v ∧
      resolveEnvVars env ("$\x7b" ++ X) = .ok v ∧
      resolveEnvVars env ("$" ++ X ++ "\x7d") = .ok v) ∧
    (∀ (env : String → Option String) (X : String),
      X ≠ "" → X.data.all isEnvNameChar = true → env X = none →
      resolveEnvVars env ("$" ++ X) = .error (envMissingMessage X)) ∧
    (∀ env : String → Option String,
      resolveEnvVars env "sk-1234$abcd$5678" = .ok "sk-1234$abcd$5678") := by
  refine ⟨fun env X v hne hall henv hv => ?_,
    fun env X hne hall henv => ?_, fun env => rfl⟩
  · refine ⟨?_, ?_, ?_, ?_⟩ <;>
      simp [resolveEnvVars, envMatch_dollar X hne hall, envMatch_braced X hne hall,
        envMatch_lopen X hne hall, envMatch_rclose X hne hall, henv, hv]
  · simp [resolveEnvVars, envMatch_dollar X hne hall, henv]

/-- Witness for the C6 amended theorem at scenario S6's data. -/
theorem env_resolver_amended_witness :
    resolveEnvVars (fun n => if n = "OPENAI_KEY" then some "sk-x" else none)
      ("$" ++ "OPENAI_KEY") = .ok "sk-x" ∧
    resolveEnvVars (fun n => if n = "OPENAI_KEY" then some "sk-x" else none)
      ("$\x7b" ++ "OPENAI_KEY" ++ "\x7d") = .ok "sk-x" ∧
    resolveEnvVars (fun n => if n = "OPENAI_KEY" then some "sk-x" else none)
      ("$" ++ "X_TOKEN") = .error (envMissingMessage "X_TOKEN") := by
  refine ⟨(env_resolver_amended.1 (fun n => if n = "OPENAI_KEY" then some "sk-x" else none)
      "OPENAI_KEY" "sk-x" (by decide) (by decide) rfl (by decide)).1,
    (env_resolver_amended.1 (fun n => if n = "OPENAI_KEY" then some "sk-x" else none)
      "OPENAI_KEY" "sk-x" (by decide) (by decide) rfl (by decide)).2.1,
    env_resolver_amended.2.1 (fun n => if n = "OPENAI_KEY" then some "sk-x" else none)
      "X_TOKEN" (by decide) (by decide) rfl⟩

theorem isPrefixOf_append_self {α : Type} [BEq α] [LawfulBEq α]
    (l r : List α) : l.isPrefixOf (l ++ r) = true := by
  induction l with
  | nil => simp [List.isPrefixOf]
  | cons a as ih => simp [List.isPrefixOf, ih]

theorem kimiIdMatch_of_here (cs : List Char) (h : kimiIdMatchHere cs = true) :
    kimiIdMatch cs = true := by
  cases cs with
  | nil => simp [kimiIdMatchHere, List.isPrefixOf] at h
  | cons c cs' => simp [kimiIdMatch, h]

theorem canonical_implies_kimiIdTest (s : String)
    (h : isCanonicalKimiId s = true) : kimiIdTest s = true := by
  by_cases hp : ("functions.".data.isPrefixOf s.data) = true
  · obtain ⟨t, ht⟩ := List.isPrefixOf_iff_prefix.mp hp
    have h10 : ("functions.".data).length = 10 := rfl
    have hdrop10 : s.data.drop 10 = t := by
      rw [← ht]
      exact List.drop_left' h10
    unfold isCanonicalKimiId at h
    rw [if_pos hp, hdrop10] at h
    cases hdw : t.dropWhile (· != ':') with
    | nil =>
      rw [hdw] at h
      replace h : false = true := h
      simp at h
    | cons c ds =>
      rw [hdw] at h
      replace h : (if c = ':' then
          !(t.takeWhile (· != ':')).isEmpty && !ds.isEmpty && ds.all Char.isDigit
        else false) = true := h
      by_cases hc : c = ':'
      · subst hc
        rw [if_pos rfl] at h
        simp only [Bool.and_eq_true, Bool.not_eq_true'] at h
        obtain ⟨⟨hnm, hds⟩, hdig⟩ := h
        cases hds' : ds with
        | nil => rw [hds'] at hds; simp at hds
        | cons d ds2 =>
          subst hds'
          have ht2 : t = t.takeWhile (· != ':') ++ (':' :: d :: ds2) := by
            rw [← hdw, List.takeWhile_append_dropWhile]
          have hs2 : s.data = "functions".data ++ ('.' :: t) := by
            rw [← ht]
            rfl
          have hd9 : ("functions".data).length = 9 := rfl
          have hdrop9 : s.data.drop 9 = '.' :: t := by
            rw [hs2]
            exact List.drop_left' hd9
          refine kimiIdMatch_of_here s.data ?_
          unfold kimiIdMatchHere
          rw [if_pos (by rw [hs2]; exact isPrefixOf_append_self _ _), hdrop9]
          simp only [hdw, if_pos rfl]
          have hdigd : d.isDigit = true := by
            have := hdig
            simp [List.all_eq_true] at this
            exact this.1
          simp [hnm, hdigd]
      · rw [if_neg hc] at h
        simp at h
  · unfold isCanonicalKimiId at h
    rw [if_neg (by simpa using hp)] at h
    simp at h

theorem repairGo_keeps_valid (base : Nat) :
    ∀ (calls : List ToolCall) (offset : Nat),
    (∀ c ∈ calls, kimiIdTest c.id = true) →
    repairGo kimiDefaultIdOptions base offset calls = calls := by
  intro calls
  induction calls with
  | nil => intro offset _; rfl
  | cons call rest ih =>
    intro offset h
    have hc : kimiIdTest call.id = true := h call (List.mem_cons_self _ _)
    have hcond : (kimiDefaultIdOptions.idNormalization ||
        (kimiDefaultIdOptions.repairOnMismatch && !kimiIdTest call.id)) = false := by
      rw [hc]
      rfl
    simp only [repairGo, hcond]
    rw [if_neg (by decide)]
    rw [ih offset (fun c hcmem => h c (List.mem_cons_of_mem _ hcmem))]

/-- C4: with the default options (`idNormalization = false`,
`repairOnMismatch = true`, `idPrefix = "functions"`), the Kimi ID repair
is idempotent on already-canonical inputs: for any message history
(entering through `nextIndexBase`, the value of `getNextToolCallIndex`),
a list of tool calls whose ids all have the canonical shape
`functions.{name}:{n}` is returned unchanged — in particular with the
same id set — and running the repair twice equals running it once. -/
theorem kimi_repair_idempotent_on_canonical :
    ∀ (base : Nat) (calls : List ToolCall),
    (∀ c ∈ calls, isCanonicalKimiId c.id = true) →
    repairOrNormalizeToolCalls kimiDefaultIdOptions base calls = calls ∧
    repairOrNormalizeToolCalls kimiDefaultIdOptions base
        (repairOrNormalizeToolCalls kimiDefaultIdOptions base calls) =
      repairOrNormalizeToolCalls kimiDefaultIdOptions base calls := by
  intro base calls h
  have h1 : repairOrNormalizeToolCalls kimiDefaultIdOptions base calls = calls := by
    have htests : ∀ c ∈ calls, kimiIdTest c.id = true :=
      fun c hc => canonical_implies_kimiIdTest c.id (h c hc)
    unfold repairOrNormalizeToolCalls
    rw [if_neg (by decide)]
    by_cases he : calls.isEmpty = true
    · rw [if_pos he]
    · rw [if_neg he]
      exact repairGo_keeps_valid base calls 0 htests
  refine ⟨h1, ?_⟩
  rw [h1]
  exact h1

/-- Witness for C4 at the scenario-S4 id. -/
theorem kimi_repair_idempotent_on_canonical_witness :
    repairOrNormalizeToolCalls kimiDefaultIdOptions 3
      [⟨"functions.get_weather:0", ⟨"get_weather", "\x7b\x7d"⟩⟩] =
      [⟨"functions.get_weather:0", ⟨"get_weather", "\x7b\x7d"⟩⟩] ∧
    repairOrNormalizeToolCalls kimiDefaultIdOptions 3
        (repairOrNormalizeToolCalls kimiDefaultIdOptions 3
          [⟨"functions.get_weather:0", ⟨"get_weather", "\x7b\x7d"⟩⟩]) =
      repairOrNormalizeToolCalls kimiDefaultIdOptions 3
        [⟨"functions.get_weather:0", ⟨"get_weather", "\x7b\x7d"⟩⟩] :=
  kimi_repair_idempotent_on_canonical 3
    [⟨"functions.get_weather:0", ⟨"get_weather", "\x7b\x7d"⟩⟩] (by decide)

theorem string_append_empty (s : String) : s ++ "" = s :=
  String.ext (by simp)

theorem toolFragSetId_function (tc : KToolFrag) (e : ToolCall) :
    (toolFragSetId tc e).function = e.function := by
  rcases tc with ⟨i, id?, fn?⟩
  rcases id? with _ | s
  · rfl
  · by_cases hs : s = "" <;> simp [toolFragSetId, hs]

theorem toolFragSetName_args (tc : KToolFrag) (e : ToolCall) :
    (toolFragSetName tc e).function.arguments = e.function.arguments := by
  rcases tc with ⟨i, id?, fn?⟩
  rcases fn? with _ | ⟨nm?, ar?⟩
  · rfl
  · rcases nm? with _ | n
    · rfl
    · by_cases hn : n = "" <;> simp [toolFragSetName, hn]

theorem toolFragAppendArgs_args (tc : KToolFrag) (e : ToolCall) :
    (toolFragAppendArgs tc e).function.arguments =
      e.function.arguments ++ fragArgText tc := by
  rcases tc with ⟨i, id?, fn?⟩
  rcases fn? with _ | ⟨nm?, ar?⟩
  · simp [toolFragAppendArgs, fragArgText, string_append_empty]
  · rcases ar? with _ | a
    · simp [toolFragAppendArgs, fragArgText, string_append_empty]
    · simp [toolFragAppendArgs, fragArgText]

theorem toolFragSynthId_function (index : Nat) (e : ToolCall) :
    (toolFragSynthId index e).function = e.function := by
  unfold toolFragSynthId
  split <;> rfl

theorem toolFragExisting_args (buffers : List (Nat × ToolCall)) (tc : KToolFrag) :
    (toolFragExisting buffers tc).function.arguments =
      bufferArgsAt buffers (tc.index.getD 0) := by
  unfold toolFragExisting bufferArgsAt
  cases jsMapGet buffers (tc.index.getD 0) <;> rfl

theorem applyToolFragEntry_args (buffers : List (Nat × ToolCall)) (tc : KToolFrag) :
    (applyToolFragEntry buffers tc).function.arguments =
      bufferArgsAt buffers (tc.index.getD 0) ++ fragArgText tc := by
  unfold applyToolFragEntry
  rw [toolFragSynthId_function, toolFragAppendArgs_args, toolFragSetName_args,
    toolFragSetId_function, toolFragExisting_args]

theorem toolFragSetName_id (tc : KToolFrag) (e : ToolCall) :
    (toolFragSetName tc e).id = e.id := by
  rcases tc with ⟨i, id?, fn?⟩
  rcases fn? with _ | ⟨nm?, ar?⟩
  · rfl
  · rcases nm? with _ | n
    · rfl
    · by_cases hn : n = "" <;> simp [toolFragSetName, hn]

theorem toolFragAppendArgs_id (tc : KToolFrag) (e : ToolCall) :
    (toolFragAppendArgs tc e).id = e.id := by
  rcases tc with ⟨i, id?, fn?⟩
  rcases fn? with _ | ⟨nm?, ar?⟩
  · rfl
  · rcases ar? with _ | a <;> simp [toolFragAppendArgs]

theorem toolFragAppendArgs_name (tc : KToolFrag) (e : ToolCall) :
    (toolFragAppendArgs tc e).function.name = e.function.name := by
  rcases tc with ⟨i, id?, fn?⟩
  rcases fn? with _ | ⟨nm?, ar?⟩
  · rfl
  · rcases ar? with _ | a <;> simp [toolFragAppendArgs]

theorem toolFragSynthId_id_of_ne (index : Nat) (e : ToolCall) (h : e.id ≠ "") :
    (toolFragSynthId index e).id = e.id := by
  unfold toolFragSynthId
  rw [if_neg (by simp [h])]

theorem applyToolFragEntry_id (buffers : List (Nat × ToolCall)) (tc : KToolFrag)
    (s : String) (hid : tc.id = some s) (hs : s ≠ "") :
    (applyToolFragEntry buffers tc).id = s := by
  unfold applyToolFragEntry
  have h1 : (toolFragSetId tc (toolFragExisting buffers tc)).id = s := by
    unfold toolFragSetId
    rw [hid]
    simp [hs]
  have h2 := toolFragSetName_id tc (toolFragSetId tc (toolFragExisting buffers tc))
  have h3 := toolFragAppendArgs_id tc
    (toolFragSetName tc (toolFragSetId tc (toolFragExisting buffers tc)))
  rw [toolFragSynthId_id_of_ne _ _ (by rw [h3, h2, h1]; exact hs), h3, h2, h1]

theorem applyToolFragEntry_name (buffers : List (Nat × ToolCall)) (tc : KToolFrag)
    (f : KFragFn) (n : String) (hf : tc.function = some f) (hn : f.name = some n)
    (hne : n ≠ "") :
    (applyToolFragEntry buffers tc).function.name = n := by
  unfold applyToolFragEntry
  have h1 : (toolFragSetName tc (toolFragSetId tc (toolFragExisting buffers tc))).function.name = n := by
    unfold toolFragSetName
    rw [hf]
    simp [hn, hne]
  rw [toolFragSynthId_function, toolFragAppendArgs_name, h1]

theorem foldl_applyToolFrag_args (i : Nat) :
    ∀ (frags : List KToolFrag) (buffers : List (Nat × ToolCall)),
    (∀ f ∈ frags, f.index.getD 0 = i) →
    bufferArgsAt (frags.foldl applyToolFrag buffers) i =
      bufferArgsAt buffers i ++ concatStrings (frags.map fragArgText) := by
  intro frags
  induction frags with
  | nil =>
    intro buffers _
    simp [concatStrings, string_append_empty]
  | cons f fs ih =>
    intro buffers h
    have hf : f.index.getD 0 = i := h f (List.mem_cons_self _ _)
    have hstep : bufferArgsAt (applyToolFrag buffers f) i =
        bufferArgsAt buffers i ++ fragArgText f := by
      unfold applyToolFrag bufferArgsAt
      rw [hf, jsMapGet_set_self]
      have := applyToolFragEntry_args buffers f
      rw [hf] at this
      simpa [bufferArgsAt] using this
    calc bufferArgsAt ((f :: fs).foldl applyToolFrag buffers) i
        = bufferArgsAt (fs.foldl applyToolFrag (applyToolFrag buffers f)) i := rfl
      _ = bufferArgsAt (applyToolFrag buffers f) i ++ concatStrings (fs.map fragArgText) :=
          ih (applyToolFrag buffers f) (fun g hg => h g (List.mem_cons_of_mem _ hg))
      _ = (bufferArgsAt buffers i ++ fragArgText f) ++ concatStrings (fs.map fragArgText) := by
          rw [hstep]
      _ = bufferArgsAt buffers i ++ concatStrings ((f :: fs).map fragArgText) := by
          rw [String.append_assoc]
          rfl

/-- C3: for any index `i` and any sequence of streamed tool-call delta
fragments for that index, the assembled buffer entry's
`function.arguments` is the in-order concatenation of the fragments'
`function.arguments` strings (so when that concatenation is valid JSON,
the assembled arguments parse to exactly its JSON value); a present
non-empty `id` fragment replaces the buffered id, and a present non-empty
`function.name` fragment replaces the buffered name. -/
theorem kimi_delta_assembly :
    (∀ (i : Nat) (frags : List KToolFrag),
      (∀ f ∈ frags, f.index.getD 0 = i) →
      bufferArgsAt (frags.foldl applyToolFrag []) i =
        concatStrings (frags.map fragArgText)) ∧
    (∀ (buffers : List (Nat × ToolCall)) (tc : KToolFrag) (s : String),
      tc.id = some s → s ≠ "" →
      ∃ e, jsMapGet (applyToolFrag buffers tc) (tc.index.getD 0) = some e ∧
        e.id = s) ∧
    (∀ (buffers : List (Nat × ToolCall)) (tc : KToolFrag) (f : KFragFn)
      (n : String), tc.function = some f → f.name = some n → n ≠ "" →
      ∃ e, jsMapGet (applyToolFrag buffers tc) (tc.index.getD 0) = some e ∧
        e.function.name = n) := by
  refine ⟨fun i frags h => ?_, fun buffers tc s hid hs => ?_,
    fun buffers tc f n hf hn hne => ?_⟩
  · have := foldl_applyToolFrag_args i frags [] h
    simpa [bufferArgsAt, jsMapGet] using this
  · exact ⟨applyToolFragEntry buffers tc,
      by unfold applyToolFrag; rw [jsMapGet_set_self],
      applyToolFragEntry_id buffers tc s hid hs⟩
  · exact ⟨applyToolFragEntry buffers tc,
      by unfold applyToolFrag; rw [jsMapGet_set_self],
      applyToolFragEntry_name buffers tc f n hf hn hne⟩

/-- Witness for C3 at the scenario-S3 fragments for index 0. -/
theorem kimi_delta_assembly_witness :
    bufferArgsAt
      ([(⟨some 0, some "c", some ⟨some "get_weather", some ""⟩⟩ : KToolFrag),
        ⟨some 0, none, some ⟨none, some "\x7b\"location\":\"Beijing\"\x7d"⟩⟩].foldl
        applyToolFrag []) 0 =
      concatStrings
        ([(⟨some 0, some "c", some ⟨some "get_weather", some ""⟩⟩ : KToolFrag),
          ⟨some 0, none, some ⟨none, some "\x7b\"location\":\"Beijing\"\x7d"⟩⟩].map
          fragArgText) ∧
    (∃ e, jsMapGet (applyToolFrag []
        ⟨some 0, some "functions.get_weather:0", none⟩) 0 = some e ∧
      e.id = "functions.get_weather:0") ∧
    (∃ e, jsMapGet (applyToolFrag []
        ⟨some 0, none, some ⟨some "get_weather", none⟩⟩) 0 = some e ∧
      e.function.name = "get_weather") :=
  ⟨kimi_delta_assembly.1 0 _ (by decide),
    kimi_delta_assembly.2.1 [] ⟨some 0, some "functions.get_weather:0", none⟩
      "functions.get_weather:0" rfl (by decide),
    kimi_delta_assembly.2.2 [] ⟨some 0, none, some ⟨some "get_weather", none⟩⟩
      ⟨some "get_weather", none⟩ "get_weather" rfl rfl (by decide)⟩

theorem synthCount_append (a b : List KOut) :
    synthCount (a ++ b) = synthCount a + synthCount b := by
  unfold synthCount
  exact List.countP_append _ _ _

theorem kimiFlush_dichotomy (assemble : Bool) (base : Nat) (st : KState) :
    kimiFlush assemble base st = (st, []) ∨
    (st.finalized = false ∧ ∃ tcs,
      kimiFlush assemble base st = ({ st with finalized := true }, [KOut.synth tcs])) := by
  unfold kimiFlush
  split
  · exact Or.inl rfl
  · rename_i hcond
    simp only [Bool.or_eq_true, Bool.not_eq_true', not_or] at hcond
    exact Or.inr ⟨Bool.not_eq_true _ |>.mp hcond.1.2, _, rfl⟩

theorem kimiProcessLine_spec (assemble : Bool) (base : Nat) (st : KState)
    (l : KLine) :
    (synthCount (kimiProcessLine assemble base st l).2 = 0 ∧
      (kimiProcessLine assemble base st l).1.finalized = st.finalized) ∨
    (st.finalized = false ∧
      (kimiProcessLine assemble base st l).1.finalized = true ∧
      synthCount (kimiProcessLine assemble base st l).2 = 1) := by
  cases l with
  | other raw => exact Or.inl ⟨rfl, rfl⟩
  | malformed raw => exact Or.inl ⟨rfl, rfl⟩
  | done =>
    rcases kimiFlush_dichotomy assemble base st with h | ⟨hfin, tcs, h⟩
    · exact Or.inl (by simp [kimiProcessLine, h, synthCount])
    · exact Or.inr ⟨hfin, by simp [kimiProcessLine, h, synthCount]⟩
  | chunk c =>
    cases assemble with
    | false => exact Or.inl (by simp [kimiProcessLine, synthCount])
    | true =>
      cases hm : (c.choice.bind fun ch => ch.delta).bind fun d => d.tool_calls with
      | some tcs =>
        exact Or.inl (by simp [kimiProcessLine, hm, synthCount])
      | none =>
        by_cases hf : (c.choice.bind fun ch => ch.finish_reason) = some "tool_calls"
        · rcases kimiFlush_dichotomy true base st with h | ⟨hfin, tcs, h⟩
          · exact Or.inl (by simp [kimiProcessLine, hm, hf, h, synthCount])
          · exact Or.inr ⟨hfin, by simp [kimiProcessLine, hm, hf, h, synthCount]⟩
        · exact Or.inl (by simp [kimiProcessLine, hm, hf, synthCount])

theorem kimiRunAux_synth_le (assemble : Bool) (base : Nat) :
    ∀ (lines : List KLine) (st : KState),
    synthCount (kimiRunAux assemble base st lines).2 ≤
      (if st.finalized = true then 0 else 1) := by
  intro lines
  induction lines with
  | nil =>
    intro st
    rcases kimiFlush_dichotomy assemble base st with h | ⟨hfin, tcs, h⟩
    · simp [kimiRunAux, h, synthCount]
    · simp [kimiRunAux, h, synthCount, hfin]
  | cons l ls ih =>
    intro st
    have hsplit : kimiRunAux assemble base st (l :: ls) =
        ((kimiRunAux assemble base (kimiProcessLine assemble base st l).1 ls).1,
          (kimiProcessLine assemble base st l).2 ++
            (kimiRunAux assemble base (kimiProcessLine assemble base st l).1 ls).2) := rfl
    rw [hsplit]
    rw [show (((kimiRunAux assemble base (kimiProcessLine assemble base st l).1 ls).1,
          (kimiProcessLine assemble base st l).2 ++
            (kimiRunAux assemble base (kimiProcessLine assemble base st l).1 ls).2)).2 =
        (kimiProcessLine assemble base st l).2 ++
          (kimiRunAux assemble base (kimiProcessLine assemble base st l).1 ls).2 from rfl]
    rw [synthCount_append]
    rcases kimiProcessLine_spec assemble base st l with ⟨h0, hfin⟩ | ⟨hfin0, hfin1, h1⟩
    · have hrest := ih (kimiProcessLine assemble base st l).1
      rw [hfin] at hrest
      omega
    · have hrest := ih (kimiProcessLine assemble base st l).1
      rw [hfin1] at hrest
      simp at hrest
      rw [hfin0, h1, hrest]
      simp

theorem kimiProcessLine_no_frags (assemble : Bool) (base : Nat) (st : KState)
    (l : KLine) (hl : lineToolFrags l = []) (hbuf : st.toolCallBuffers = [])
    (_hfin : st.finalized = false) :
    (kimiProcessLine assemble base st l).1 = st ∧
    synthCount (kimiProcessLine assemble base st l).2 = 0 := by
  have hflush : kimiFlush assemble base st = (st, []) := by
    unfold kimiFlush
    rw [if_pos (by simp [hbuf])]
  cases l with
  | other raw => exact ⟨rfl, rfl⟩
  | malformed raw => exact ⟨rfl, rfl⟩
  | done => simp [kimiProcessLine, hflush, synthCount]
  | chunk c =>
    cases assemble with
    | false => simp [kimiProcessLine, synthCount]
    | true =>
      cases hm : (c.choice.bind fun ch => ch.delta).bind fun d => d.tool_calls with
      | some tcs =>
        have htcs : tcs = [] := by
          have : lineToolFrags (KLine.chunk c) = tcs := by
            simp [lineToolFrags, hm]
          rw [this] at hl
          exact hl
        subst htcs
        simp [kimiProcessLine, hm, synthCount]
      | none =>
        by_cases hf : (c.choice.bind fun ch => ch.finish_reason) = some "tool_calls"
        · simp [kimiProcessLine, hm, hf, hflush, synthCount]
        · simp [kimiProcessLine, hm, hf, synthCount]

theorem kimiRunAux_no_frags (assemble : Bool) (base : Nat) :
    ∀ (lines : List KLine) (st : KState),
    (∀ l ∈ lines, lineToolFrags l = []) →
    st.toolCallBuffers = [] → st.finalized = false →
    synthCount (kimiRunAux assemble base st lines).2 = 0 := by
  intro lines
  induction lines with
  | nil =>
    intro st _ hbuf _
    have hflush : kimiFlush assemble base st = (st, []) := by
      unfold kimiFlush
      rw [if_pos (by simp [hbuf])]
    simp [kimiRunAux, hflush, synthCount]
  | cons l ls ih =>
    intro st h hbuf hfin
    have hstep := kimiProcessLine_no_frags assemble base st l
      (h l (List.mem_cons_self _ _)) hbuf hfin
    have hsplit : kimiRunAux assemble base st (l :: ls) =
        ((kimiRunAux assemble base (kimiProcessLine assemble base st l).1 ls).1,
          (kimiProcessLine assemble base st l).2 ++
            (kimiRunAux assemble base (kimiProcessLine assemble base st l).1 ls).2) := rfl
    rw [hsplit]
    rw [show (((kimiRunAux assemble base (kimiProcessLine assemble base st l).1 ls).1,
          (kimiProcessLine assemble base st l).2 ++
            (kimiRunAux assemble base (kimiProcessLine assemble base st l).1 ls).2)).2 =
        (kimiProcessLine assemble base st l).2 ++
          (kimiRunAux assemble base (kimiProcessLine assemble base st l).1 ls).2 from rfl]
    rw [synthCount_append, hstep.2, hstep.1]
    rw [ih st (fun x hx => h x (List.mem_cons_of_mem _ hx)) hbuf hfin]

/-- C9: with `assembleToolDeltas = true`, the synthesised final tool-calls
chunk is emitted at most once per response stream — the per-stream
`finalized` flag guards the flush — for every line sequence, including
one with both a `finish_reason:"tool_calls"` chunk and a `[DONE]`
terminator and one whose body ends without a terminator; and no
synthesised chunk is emitted at all when no tool-call deltas were
buffered. -/
theorem kimi_synth_at_most_once :
    ∀ (base : Nat) (lines : List KLine),
    synthCount (kimiRun true base lines) ≤ 1 ∧
    ((∀ l ∈ lines, lineToolFrags l = []) →
      synthCount (kimiRun true base lines) = 0) := by
  intro base lines
  constructor
  · have := kimiRunAux_synth_le true base lines kimiInitialState
    simpa [kimiRun, kimiInitialState] using this
  · intro h
    exact kimiRunAux_no_frags true base lines kimiInitialState h rfl rfl

/-- Witness for C9: a stream with both a `finish_reason:"tool_calls"`
chunk and a `[DONE]` terminator but no buffered tool-call deltas. -/
theorem kimi_synth_at_most_once_witness :
    synthCount (kimiRun true 0
      [KLine.chunk ⟨some ⟨none, some "tool_calls"⟩⟩, KLine.done]) ≤ 1 ∧
    synthCount (kimiRun true 0
      [KLine.chunk ⟨some ⟨none, some "tool_calls"⟩⟩, KLine.done]) = 0 :=
  ⟨(kimi_synth_at_most_once 0
      [KLine.chunk ⟨some ⟨none, some "tool_calls"⟩⟩, KLine.done]).1,
    (kimi_synth_at_most_once 0
      [KLine.chunk ⟨some ⟨none, some "tool_calls"⟩⟩, KLine.done]).2 (by decide)⟩

theorem setLastContent_concat (pre : List RMessage) (m : RMessage) (c : String) :
    setLastContent (pre ++ [m]) c = pre ++ [{ m with content := some c }] := by
  induction pre with
  | nil => rfl
  | cons a as ih =>
    cases as with
    | nil => rfl
    | cons b bs =>
      show a :: setLastContent ((b :: bs) ++ [m]) c = _
      rw [ih]
      rfl

theorem reasoning_deep_general (pre : List RMessage) (rest : String)
    (eff verb : Option String)
    (hhash : ∀ t ∈ hashtagMap, sContains ("Deep:" ++ rest) t.1 = false) :
    reasoningTransformRequestOut
      ⟨pre ++ [⟨"user", some ("Deep:" ++ rest)⟩], eff, verb, none, false, none⟩ =
      ⟨pre ++ [⟨"user", some (sTrim rest)⟩],
        fillIfUnset eff "high", fillIfUnset verb "medium", none, false, none⟩ := by
  have hfind2 : hashtagMap.find?
      (fun t => sContains ("Deep:" ++ rest) t.1) = none :=
    List.find?_eq_none.mpr (fun t ht => by rw [hhash t ht]; simp)
  have hq : sStartsWith ("Deep:" ++ rest) "Quick:" = false := rfl
  have hdeep : sStartsWith ("Deep:" ++ rest) "Deep:" = true :=
    isPrefixOf_append_self "Deep:".data rest.data
  have hfind1 : tokenMap.find? (fun t => sStartsWith ("Deep:" ++ rest) t.1) =
      some ("Deep:", "high", "medium") := by
    unfold tokenMap
    rw [List.find?_cons_of_neg _ (by simp [hq]),
      List.find?_cons_of_pos _ (by simp [hdeep])]
  have h1 : runTokenPass
      (⟨pre ++ [⟨"user", some ("Deep:" ++ rest)⟩], eff, verb, none, false, none⟩ : RRequest)
      ("Deep:" ++ rest) =
      (⟨pre ++ [⟨"user", some ("Deep:" ++ rest)⟩],
        fillIfUnset eff "high", fillIfUnset verb "medium", none, false, none⟩,
        sTrim rest, true) := by
    unfold runTokenPass
    rw [hfind1]
    rfl
  have h2 : runHashtagPass
      (⟨pre ++ [⟨"user", some ("Deep:" ++ rest)⟩],
        fillIfUnset eff "high", fillIfUnset verb "medium", none, false, none⟩ : RRequest)
      ("Deep:" ++ rest) (sTrim rest) true =
      (⟨pre ++ [⟨"user", some ("Deep:" ++ rest)⟩],
        fillIfUnset eff "high", fillIfUnset verb "medium", none, false, none⟩,
        sTrim rest, true) := by
    unfold runHashtagPass
    rw [hfind2]
  unfold reasoningTransformRequestOut
  rw [List.getLast?_concat]
  simp only [h1, h2, setLastContent_concat]
  simp [normalizeThinking, normalizeReasoning]

theorem reasoning_hashtag_general (pre : List RMessage) (content : String)
    (eff verb : Option String)
    (hpre : ∀ t ∈ tokenMap, sStartsWith content t.1 = false)
    (hq : sContains content "#quick" = true) :
    reasoningTransformRequestOut
      ⟨pre ++ [⟨"user", some content⟩], eff, verb, none, false, none⟩ =
      ⟨pre ++ [⟨"user", some (sTrim (sReplaceFirst content "#quick"))⟩],
        fillIfUnset eff "low", fillIfUnset verb "low", none, false, none⟩ := by
  have hfind1 : tokenMap.find? (fun t => sStartsWith content t.1) = none :=
    List.find?_eq_none.mpr (fun t ht => by rw [hpre t ht]; simp)
  have h1 : runTokenPass
      (⟨pre ++ [⟨"user", some content⟩], eff, verb, none, false, none⟩ : RRequest)
      content =
      (⟨pre ++ [⟨"user", some content⟩], eff, verb, none, false, none⟩,
        content, false) := by
    unfold runTokenPass
    rw [hfind1]
  have h2 : runHashtagPass
      (⟨pre ++ [⟨"user", some content⟩], eff, verb, none, false, none⟩ : RRequest)
      content content false =
      (⟨pre ++ [⟨"user", some content⟩],
        fillIfUnset eff "low", fillIfUnset verb "low", none, false, none⟩,
        sTrim (sReplaceFirst content "#quick"), true) := by
    unfold runHashtagPass
    rw [show hashtagMap.find? (fun t => sContains content t.1) =
        some ("#quick", "low", "low") from List.find?_cons_of_pos _ hq]
  unfold reasoningTransformRequestOut
  rw [List.getLast?_concat]
  simp only [h1, h2, setLastContent_concat]
  simp [normalizeThinking, normalizeReasoning]

/-- C7 (amended): the extractor removes the matched prefix token (or the
first occurrence of the matched hashtag token) and then *trims*
leading/trailing whitespace of the resulting text (rather than leaving
all other characters intact), and fills `reasoning_effort`/`verbosity`
per the token table only when those fields are not already truthy; in
particular `"Deep: explain TCP"` with no pre-set fields yields final user
text `"explain TCP"` with `reasoning_effort "high"` and
`verbosity "medium"`. -/
theorem reasoning_token_strip_amended :
    (∀ (pre : List RMessage) (rest : String) (eff verb : Option String),
      (∀ t ∈ hashtagMap, sContains ("Deep:" ++ rest) t.1 = false) →
      reasoningTransformRequestOut
        ⟨pre ++ [⟨"user", some ("Deep:" ++ rest)⟩], eff, verb, none, false, none⟩ =
        ⟨pre ++ [⟨"user", some (sTrim rest)⟩],
          fillIfUnset eff "high", fillIfUnset verb "medium", none, false, none⟩) ∧
    (∀ (pre : List RMessage) (content : String) (eff verb : Option String),
      (∀ t ∈ tokenMap, sStartsWith content t.1 = false) →
      sContains content "#quick" = true →
      reasoningTransformRequestOut
        ⟨pre ++ [⟨"user", some content⟩], eff, verb, none, false, none⟩ =
        ⟨pre ++ [⟨"user", some (sTrim (sReplaceFirst content "#quick"))⟩],
          fillIfUnset eff "low", fillIfUnset verb "low", none, false, none⟩) ∧
    reasoningTransformRequestOut
      ⟨[⟨"user", some "Deep: explain TCP"⟩], none, none, none, false, none⟩ =
      ⟨[⟨"user", some "explain TCP"⟩], some "high", some "medium",
        none, false, none⟩ :=
  ⟨reasoning_deep_general, reasoning_hashtag_general, rfl⟩

/-- Witness for C7's amended theorem at scenario S2's input. -/
theorem reasoning_token_strip_amended_witness :
    reasoningTransformRequestOut
      ⟨[] ++ [⟨"user", some ("Deep:" ++ " explain TCP")⟩], none, none,
        none, false, none⟩ =
      ⟨[] ++ [⟨"user", some (sTrim " explain TCP")⟩],
        fillIfUnset none "high", fillIfUnset none "medium", none, false, none⟩ ∧
    reasoningTransformRequestOut
      ⟨[] ++ [⟨"user", some "check #quick now"⟩], none, none, none, false, none⟩ =
      ⟨[] ++ [⟨"user", some (sTrim (sReplaceFirst "check #quick now" "#quick"))⟩],
        fillIfUnset none "low", fillIfUnset none "low", none, false, none⟩ :=
  ⟨reasoning_token_strip_amended.1 [] " explain TCP" none none (by decide),
    reasoning_token_strip_amended.2.1 [] "check #quick now" none none
      (by decide) (by decide)⟩

theorem commaKey_data (n m : String) :
    (n ++ "," ++ m).data = n.data ++ ',' :: m.data := by
  rw [String.data_append, String.data_append, List.append_assoc]
  rfl

theorem comma_mem_commaKey (n m : String) : ',' ∈ (n ++ "," ++ m).data := by
  rw [commaKey_data]
  simp

theorem commaKey_ne_of_no_comma {k : String} (n m : String)
    (h : ',' ∉ k.data) : n ++ "," ++ m ≠ k := by
  intro he
  exact h (he ▸ comma_mem_commaKey n m)

theorem commaKey_inj_model {n m1 m2 : String}
    (h : n ++ "," ++ m1 = n ++ "," ++ m2) : m1 = m2 := by
  have hd := congrArg String.data h
  rw [commaKey_data, commaKey_data] at hd
  have h2 := List.append_cancel_left hd
  refine String.ext ?_
  injection h2

theorem append_comma_split_inj :
    ∀ {n1 : List Char} {m1 : List Char} {n2 m2 : List Char},
    ',' ∉ n1 → ',' ∉ n2 → n1 ++ ',' :: m1 = n2 ++ ',' :: m2 →
    n1 = n2 ∧ m1 = m2 := by
  intro n1
  induction n1 with
  | nil =>
    intro m1 n2 m2 _ h2 h
    cases n2 with
    | nil =>
      simp only [List.nil_append, List.cons.injEq] at h
      exact ⟨rfl, h.2⟩
    | cons d n2' =>
      simp only [List.nil_append, List.cons_append, List.cons.injEq] at h
      exact absurd (by rw [← h.1]; exact List.mem_cons_self _ _ : ',' ∈ d :: n2') h2
  | cons c n1' ih =>
    intro m1 n2 m2 h1 h2 h
    cases n2 with
    | nil =>
      simp only [List.nil_append, List.cons_append, List.cons.injEq] at h
      exact absurd (by rw [h.1]; exact List.mem_cons_self _ _ : ',' ∈ c :: n1') h1
    | cons d n2' =>
      simp only [List.cons_append, List.cons.injEq] at h
      obtain ⟨hcd, ht⟩ := h
      have hre := ih (fun hm => h1 (List.mem_cons_of_mem _ hm))
        (fun hm => h2 (List.mem_cons_of_mem _ hm)) ht
      exact ⟨by rw [hcd, hre.1], hre.2⟩

theorem commaKey_inj_full {n1 m1 n2 m2 : String}
    (hn1 : ',' ∉ n1.data) (hn2 : ',' ∉ n2.data)
    (h : n1 ++ "," ++ m1 = n2 ++ "," ++ m2) : n1 = n2 ∧ m1 = m2 := by
  have hd := congrArg String.data h
  rw [commaKey_data, commaKey_data] at hd
  have hre := append_comma_split_inj hn1 hn2 hd
  exact ⟨String.ext hre.1, String.ext hre.2⟩

/-! Step lemmas about `registerModelRoute`. -/

theorem registerModelRoute_providers (n : String) (s : ProviderService)
    (m : String) : (registerModelRoute n s m).providers = s.providers := by
  unfold registerModelRoute
  split <;> rfl

theorem registerModelRoute_key_cases (n : String) (s : ProviderService)
    (m k : String)
    (h : (jsMapGet (registerModelRoute n s m).modelRoutes k).isSome = true) :
    (jsMapGet s.modelRoutes k).isSome = true ∨ k = n ++ "," ++ m ∨ k = m := by
  by_cases hfull : k = n ++ "," ++ m
  · exact Or.inr (Or.inl hfull)
  · by_cases hbare : k = m
    · exact Or.inr (Or.inr hbare)
    · left
      unfold registerModelRoute at h
      split at h
      · rw [jsMapGet_set_ne _ _ _ _ (Ne.symm hfull)] at h
        exact h
      · rw [jsMapGet_set_ne _ _ _ _ (Ne.symm hbare),
          jsMapGet_set_ne _ _ _ _ (Ne.symm hfull)] at h
        exact h

theorem registerModelRoute_preserve (n : String) (s : ProviderService)
    (m k : String) (r : ModelRoute)
    (h : jsMapGet s.modelRoutes k = some r) (hfull : k ≠ n ++ "," ++ m) :
    jsMapGet (registerModelRoute n s m).modelRoutes k = some r := by
  have h1 : jsMapGet (jsMapSet s.modelRoutes (n ++ "," ++ m)
      ⟨n, m, n ++ "," ++ m⟩) k = some r := by
    rw [jsMapGet_set_ne _ _ _ _ (Ne.symm hfull)]
    exact h
  unfold registerModelRoute
  split
  · exact h1
  · rename_i hcond
    by_cases hbare : m = k
    · exfalso
      subst hbare
      rw [h1] at hcond
      simp at hcond
    · rw [jsMapGet_set_ne _ _ _ _ hbare]
      exact h1

theorem registerModelRoute_none (n : String) (s : ProviderService)
    (m k : String) (h : jsMapGet s.modelRoutes k = none)
    (hfull : k ≠ n ++ "," ++ m) (hbare : k ≠ m) :
    jsMapGet (registerModelRoute n s m).modelRoutes k = none := by
  have h1 : jsMapGet (jsMapSet s.modelRoutes (n ++ "," ++ m)
      ⟨n, m, n ++ "," ++ m⟩) k = none := by
    rw [jsMapGet_set_ne _ _ _ _ (Ne.symm hfull)]
    exact h
  unfold registerModelRoute
  split
  · exact h1
  · rw [jsMapGet_set_ne _ _ _ _ (Ne.symm hbare)]
    exact h1

theorem registerModelRoute_sets_comma (n : String) (s : ProviderService)
    (m : String) (hm : ',' ∉ m.data) :
    jsMapGet (registerModelRoute n s m).modelRoutes (n ++ "," ++ m) =
      some ⟨n, m, n ++ "," ++ m⟩ := by
  unfold registerModelRoute
  split
  · exact jsMapGet_set_self _ _ _
  · rw [jsMapGet_set_ne _ _ _ _ (Ne.symm (commaKey_ne_of_no_comma n m hm))]
    exact jsMapGet_set_self _ _ _

theorem registerModelRoute_sets_bare (n : String) (s : ProviderService)
    (m : String) (hm : ',' ∉ m.data) (h : jsMapGet s.modelRoutes m = none) :
    jsMapGet (registerModelRoute n s m).modelRoutes m = some ⟨n, m, n ++ "," ++ m⟩ := by
  have h1 : jsMapGet (jsMapSet s.modelRoutes (n ++ "," ++ m)
      ⟨n, m, n ++ "," ++ m⟩) m = none := by
    rw [jsMapGet_set_ne _ _ _ _ (commaKey_ne_of_no_comma n m hm)]
    exact h
  unfold registerModelRoute
  split
  · rename_i hcond
    rw [h1] at hcond
    simp at hcond
  · exact jsMapGet_set_self _ _ _

/-! Fold lemmas: `registerProvider` iterates `registerModelRoute` over the
provider's model list after storing the provider record. -/

theorem registerProvider_eq (s : ProviderService) (p : LLMProviderRec) :
    registerProvider s p =
      p.models.foldl (registerModelRoute p.name)
        { s with providers := jsMapSet s.providers p.name p } := rfl

theorem foldl_registerModelRoute_providers (n : String) :
    ∀ (models : List String) (s : ProviderService),
    (models.foldl (registerModelRoute n) s).providers = s.providers := by
  intro models
  induction models with
  | nil => intro s; rfl
  | cons m rest ih =>
    intro s
    rw [List.foldl_cons, ih, registerModelRoute_providers]

theorem registerProvider_providers (s : ProviderService) (p : LLMProviderRec) :
    (registerProvider s p).providers = jsMapSet s.providers p.name p := by
  rw [registerProvider_eq, foldl_registerModelRoute_providers]

theorem foldl_registerModelRoute_preserve (n k : String) (r : ModelRoute) :
    ∀ (models : List String) (s : ProviderService),
    jsMapGet s.modelRoutes k = some r →
    (∀ m ∈ models, k ≠ n ++ "," ++ m) →
    jsMapGet ((models.foldl (registerModelRoute n) s)).modelRoutes k = some r := by
  intro models
  induction models with
  | nil => intro s h _; exact h
  | cons m rest ih =>
    intro s h hk
    rw [List.foldl_cons]
    exact ih _ (registerModelRoute_preserve n s m k r h (hk m (List.mem_cons_self _ _)))
      (fun m' hm' => hk m' (List.mem_cons_of_mem _ hm'))

theorem foldl_registerModelRoute_none (n k : String) :
    ∀ (models : List String) (s : ProviderService),
    jsMapGet s.modelRoutes k = none →
    (∀ m ∈ models, k ≠ n ++ "," ++ m ∧ k ≠ m) →
    jsMapGet ((models.foldl (registerModelRoute n) s)).modelRoutes k = none := by
  intro models
  induction models with
  | nil => intro s h _; exact h
  | cons m rest ih =>
    intro s h hk
    rw [List.foldl_cons]
    exact ih _
      (registerModelRoute_none n s m k h (hk m (List.mem_cons_self _ _)).1
        (hk m (List.mem_cons_self _ _)).2)
      (fun m' hm' => hk m' (List.mem_cons_of_mem _ hm'))

theorem foldl_establish_bare (n m0 : String) (hm0 : ',' ∉ m0.data) :
    ∀ (models : List String) (s : ProviderService),
    m0 ∈ models → jsMapGet s.modelRoutes m0 = none →
    jsMapGet ((models.foldl (registerModelRoute n) s)).modelRoutes m0 =
      some ⟨n, m0, n ++ "," ++ m0⟩ := by
  intro models
  induction models with
  | nil => intro s hmem _; cases hmem
  | cons m rest ih =>
    intro s hmem hnone
    rw [List.foldl_cons]
    by_cases he : m = m0
    · subst he
      exact foldl_registerModelRoute_preserve n m ⟨n, m, n ++ "," ++ m⟩ rest _
        (registerModelRoute_sets_bare n s m hm0 hnone)
        (fun m' _ => Ne.symm (commaKey_ne_of_no_comma n m' hm0))
    · rcases List.mem_cons.mp hmem with h | h
      · exact absurd h.symm he
      · exact ih _ h
          (registerModelRoute_none n s m m0 hnone
            (Ne.symm (commaKey_ne_of_no_comma n m hm0)) (Ne.symm he))

theorem foldl_comma_stable (n m0 : String) (hm0 : ',' ∉ m0.data) :
    ∀ (models : List String) (s : ProviderService),
    jsMapGet s.modelRoutes (n ++ "," ++ m0) = some ⟨n, m0, n ++ "," ++ m0⟩ →
    jsMapGet ((models.foldl (registerModelRoute n) s)).modelRoutes
      (n ++ "," ++ m0) = some ⟨n, m0, n ++ "," ++ m0⟩ := by
  intro models
  induction models with
  | nil => intro s h; exact h
  | cons m rest ih =>
    intro s h
    rw [List.foldl_cons]
    by_cases he : m = m0
    · subst he
      exact ih _ (registerModelRoute_sets_comma n s m hm0)
    · exact ih _ (registerModelRoute_preserve n s m _ _ h
        (fun hh => he (commaKey_inj_model hh).symm))

theorem foldl_establish_comma (n m0 : String) (hm0 : ',' ∉ m0.data) :
    ∀ (models : List String) (s : ProviderService), m0 ∈ models →
    jsMapGet ((models.foldl (registerModelRoute n) s)).modelRoutes
      (n ++ "," ++ m0) = some ⟨n, m0, n ++ "," ++ m0⟩ := by
  intro models
  induction models with
  | nil => intro s hmem; cases hmem
  | cons m rest ih =>
    intro s hmem
    rw [List.foldl_cons]
    by_cases he : m = m0
    · subst he
      exact foldl_comma_stable n m hm0 rest _ (registerModelRoute_sets_comma n s m hm0)
    · rcases List.mem_cons.mp hmem with h | h
      · exact absurd h.symm he
      · exact ih _ h

theorem registerProvider_route_none (s : ProviderService) (p : LLMProviderRec)
    (k : String) (h : jsMapGet s.modelRoutes k = none)
    (hk : ∀ m ∈ p.models, k ≠ p.name ++ "," ++ m ∧ k ≠ m) :
    jsMapGet (registerProvider s p).modelRoutes k = none := by
  rw [registerProvider_eq]
  exact foldl_registerModelRoute_none p.name k p.models _ h hk

theorem buildProviderService_none (k : String) :
    ∀ (ps : List LLMProviderRec) (s : ProviderService),
    jsMapGet s.modelRoutes k = none → k ∉ advertisedNames ps →
    jsMapGet ((ps.foldl registerProvider s)).modelRoutes k = none := by
  intro ps
  induction ps with
  | nil => intro s h _; exact h
  | cons p rest ih =>
    intro s h hk
    have hadv : advertisedNames (p :: rest) =
        p.models ++ p.models.map (fun m => p.name ++ "," ++ m) ++
          advertisedNames rest := rfl
    rw [hadv] at hk
    rw [List.foldl_cons]
    refine ih _ (registerProvider_route_none s p k h ?_) ?_
    · intro m hm
      refine ⟨?_, ?_⟩
      · intro he
        exact hk (List.mem_append_left _
          (List.mem_append_right _ (by rw [he]; exact List.mem_map_of_mem _ hm)))
      · intro he
        exact hk (List.mem_append_left _ (List.mem_append_left _ (by rw [he]; exact hm)))
    · intro he
      exact hk (List.mem_append_right _ he)

theorem resolveUnknown_of_not_advertised (ps : List LLMProviderRec)
    (name : String) (h : name ∉ advertisedNames ps) :
    resolveOrUnknownModel (buildProviderService ps) name =
      RouteOutcome.httpError 400 "unknown_model" := by
  have hnone : jsMapGet (buildProviderService ps).modelRoutes name = none :=
    buildProviderService_none name ps emptyProviderService rfl h
  show (match resolveModelRoute (buildProviderService ps) name with
    | some info => RouteOutcome.success info
    | none => RouteOutcome.httpError 400 "unknown_model") =
      RouteOutcome.httpError 400 "unknown_model"
  show (match
      (match jsMapGet (buildProviderService ps).modelRoutes name with
       | none => (none : Option RequestRouteInfo)
       | some route =>
         match jsMapGet (buildProviderService ps).providers route.provider with
         | none => none
         | some provider => some ⟨provider, name, route.model⟩) with
    | some info => RouteOutcome.success info
    | none => RouteOutcome.httpError 400 "unknown_model") =
      RouteOutcome.httpError 400 "unknown_model"
  rw [hnone]

/-- C10: `registerProvider` always installs the route keyed by the comma
form `provider,model` for each of the provider's models, installs the route
keyed by the bare model name only when no route for that bare name exists
yet, and consequently, when two providers advertise the same bare model
name, the bare name resolves to the provider registered first while each
comma-form name resolves to its named provider. -/
theorem register_provider_route_precedence
    (p1 p2 : LLMProviderRec) (m : String)
    (hn1 : ',' ∉ p1.name.data) (hn2 : ',' ∉ p2.name.data)
    (hm1 : ∀ x ∈ p1.models, ',' ∉ x.data)
    (hm2 : ∀ x ∈ p2.models, ',' ∉ x.data)
    (hmem1 : m ∈ p1.models) (hmem2 : m ∈ p2.models)
    (hne : p1.name ≠ p2.name) :
    (∀ (s : ProviderService), ∀ x ∈ p1.models,
      jsMapGet (registerProvider s p1).modelRoutes (p1.name ++ "," ++ x) =
        some ⟨p1.name, x, p1.name ++ "," ++ x⟩) ∧
    (∀ (s : ProviderService) (x : String) (r : ModelRoute), ',' ∉ x.data →
      jsMapGet s.modelRoutes x = some r →
      jsMapGet (registerProvider s p1).modelRoutes x = some r) ∧
    resolveModelRoute (buildProviderService [p1, p2]) m = some ⟨p1, m, m⟩ ∧
    resolveModelRoute (buildProviderService [p1, p2]) (p1.name ++ "," ++ m) =
      some ⟨p1, p1.name ++ "," ++ m, m⟩ ∧
    resolveModelRoute (buildProviderService [p1, p2]) (p2.name ++ "," ++ m) =
      some ⟨p2, p2.name ++ "," ++ m, m⟩ := by
  have hbuild : buildProviderService [p1, p2] =
      registerProvider (registerProvider emptyProviderService p1) p2 := rfl
  have hm0 : ',' ∉ m.data := hm1 m hmem1
  have hbare1 : jsMapGet (registerProvider emptyProviderService p1).modelRoutes m =
      some ⟨p1.name, m, p1.name ++ "," ++ m⟩ := by
    rw [registerProvider_eq]
    exact foldl_establish_bare p1.name m hm0 p1.models _ hmem1 rfl
  have hcomma1 : jsMapGet (registerProvider emptyProviderService p1).modelRoutes
      (p1.name ++ "," ++ m) = some ⟨p1.name, m, p1.name ++ "," ++ m⟩ := by
    rw [registerProvider_eq]
    exact foldl_establish_comma p1.name m hm0 p1.models _ hmem1
  have hbare2 : jsMapGet (buildProviderService [p1, p2]).modelRoutes m =
      some ⟨p1.name, m, p1.name ++ "," ++ m⟩ := by
    rw [hbuild, registerProvider_eq]
    exact foldl_registerModelRoute_preserve p2.name m _ p2.models _ hbare1
      (fun m' _ => Ne.symm (commaKey_ne_of_no_comma p2.name m' hm0))
  have hcomma1b : jsMapGet (buildProviderService [p1, p2]).modelRoutes
      (p1.name ++ "," ++ m) = some ⟨p1.name, m, p1.name ++ "," ++ m⟩ := by
    rw [hbuild, registerProvider_eq]
    exact foldl_registerModelRoute_preserve p2.name _ _ p2.models _ hcomma1
      (fun m' _ he => hne (commaKey_inj_full hn1 hn2 he).1)
  have hcomma2 : jsMapGet (buildProviderService [p1, p2]).modelRoutes
      (p2.name ++ "," ++ m) = some ⟨p2.name, m, p2.name ++ "," ++ m⟩ := by
    rw [hbuild, registerProvider_eq]
    exact foldl_establish_comma p2.name m (hm2 m hmem2) p2.models _ hmem2
  have hprov : (buildProviderService [p1, p2]).providers =
      jsMapSet (jsMapSet emptyProviderService.providers p1.name p1) p2.name p2 := by
    rw [hbuild, registerProvider_providers, registerProvider_providers]
  have hp1 : jsMapGet (buildProviderService [p1, p2]).providers p1.name = some p1 := by
    rw [hprov, jsMapGet_set_ne _ _ _ _ (Ne.symm hne), jsMapGet_set_self]
  have hp2 : jsMapGet (buildProviderService [p1, p2]).providers p2.name = some p2 := by
    rw [hprov, jsMapGet_set_self]
  refine ⟨?_, ?_, ?_, ?_, ?_⟩
  · intro s x hx
    rw [registerProvider_eq]
    exact foldl_establish_comma p1.name x (hm1 x hx) p1.models _ hx
  · intro s x r hxc hx
    rw [registerProvider_eq]
    exact foldl_registerModelRoute_preserve p1.name x r p1.models _ hx
      (fun m' _ => Ne.symm (commaKey_ne_of_no_comma p1.name m' hxc))
  · show (match jsMapGet (buildProviderService [p1, p2]).modelRoutes m with
      | none => (none : Option RequestRouteInfo)
      | some route =>
        match jsMapGet (buildProviderService [p1, p2]).providers route.provider with
        | none => none
        | some provider => some ⟨provider, m, route.model⟩) = some ⟨p1, m, m⟩
    rw [hbare2]
    show (match jsMapGet (buildProviderService [p1, p2]).providers p1.name with
      | none => (none : Option RequestRouteInfo)
      | some provider => some ⟨provider, m, m⟩) = some ⟨p1, m, m⟩
    rw [hp1]
  · show (match jsMapGet (buildProviderService [p1, p2]).modelRoutes
        (p1.name ++ "," ++ m) with
      | none => (none : Option RequestRouteInfo)
      | some route =>
        match jsMapGet (buildProviderService [p1, p2]).providers route.provider with
        | none => none
        | some provider => some ⟨provider, p1.name ++ "," ++ m, route.model⟩) =
      some ⟨p1, p1.name ++ "," ++ m, m⟩
    rw [hcomma1b]
    show (match jsMapGet (buildProviderService [p1, p2]).providers p1.name with
      | none => (none : Option RequestRouteInfo)
      | some provider => some ⟨provider, p1.name ++ "," ++ m, m⟩) =
      some ⟨p1, p1.name ++ "," ++ m, m⟩
    rw [hp1]
  · show (match jsMapGet (buildProviderService [p1, p2]).modelRoutes
        (p2.name ++ "," ++ m) with
      | none => (none : Option RequestRouteInfo)
      | some route =>
        match jsMapGet (buildProviderService [p1, p2]).providers route.provider with
        | none => none
        | some provider => some ⟨provider, p2.name ++ "," ++ m, route.model⟩) =
      some ⟨p2, p2.name ++ "," ++ m, m⟩
    rw [hcomma2]
    show (match jsMapGet (buildProviderService [p1, p2]).providers p2.name with
      | none => (none : Option RequestRouteInfo)
      | some provider => some ⟨provider, p2.name ++ "," ++ m, m⟩) =
      some ⟨p2, p2.name ++ "," ++ m, m⟩
    rw [hp2]

theorem register_provider_route_precedence_witness :
    (("shared" : String) ∈ ["shared"]) ∧
    resolveModelRoute
        (buildProviderService [⟨"alpha", ["shared"]⟩, ⟨"beta", ["shared"]⟩])
        "shared" = some ⟨⟨"alpha", ["shared"]⟩, "shared", "shared"⟩ :=
  ⟨by decide,
    (register_provider_route_precedence ⟨"alpha", ["shared"]⟩ ⟨"beta", ["shared"]⟩
      "shared" (by decide) (by decide) (by decide) (by decide) (by decide)
      (by decide) (by decide)).2.2.1⟩

/-- C5 (amended): the middleware splits the inbound model identifier on
*every* comma and the destructuring keeps the first two segments — so
`"a,b,c"` rewrites the model field to `"b"`, not to the full remainder
`"b,c"` — while `provider,model` and bare `model` identifiers behave as the
claim says; and an identifier that names no registered route yields a 400
error of kind `unknown_model` with no upstream call. -/
theorem model_split_and_unknown_model_amended (ps : List LLMProviderRec)
    (name : String) (h : name ∉ advertisedNames ps) :
    modelProviderMiddleware (some "openai,gpt-5") =
      .okRouted (some "openai") (some "gpt-5") ∧
    modelProviderMiddleware (some "gpt-5") = .okRouted (some "gpt-5") none ∧
    modelProviderMiddleware (some "a,b,c") = .okRouted (some "a") (some "b") ∧
    resolveOrUnknownModel (buildProviderService ps) name =
      RouteOutcome.httpError 400 "unknown_model" :=
  ⟨rfl, rfl, rfl, resolveUnknown_of_not_advertised ps name h⟩

theorem model_split_and_unknown_model_amended_witness :
    (("missing" : String) ∉ advertisedNames [⟨"openai", ["gpt-5"]⟩]) ∧
    resolveOrUnknownModel (buildProviderService [⟨"openai", ["gpt-5"]⟩])
        "missing" = RouteOutcome.httpError 400 "unknown_model" :=
  ⟨by decide,
    (model_split_and_unknown_model_amended [⟨"openai", ["gpt-5"]⟩] "missing"
      (by decide)).2.2.2⟩

/-! Role-tool validation lemmas.  The MiniMax-M2 hook's body is textually
identical to the Kimi hook's, so the two functions agree definitionally. -/

theorem miniMax_eq_kimi (a : Bool) (req : VRequest) :
    miniMaxM2TransformRequestIn a req = kimiTransformRequestIn a req := rfl

theorem vDefault_messages (req : VRequest) :
    (if req.hasTools ∧ optFalsy req.tool_choice then
      { req with tool_choice := some "auto" } else req).messages =
    req.messages := by
  split <;> rfl

theorem roleToolLoop_error (req : VRequest) (bad : VMessage)
    (hbad : bad ∈ req.messages) (hrole : bad.role = "tool")
    (hmiss : optFalsy bad.tool_call_id = true ∨ optFalsy bad.content = true) :
    kimiTransformRequestIn true req =
      Except.error "Tool messages must have tool_call_id and content" := by
  have hp : (fun m => m.role == "tool" &&
      (optFalsy m.tool_call_id || optFalsy m.content)) bad = true := by
    simp only [hrole]
    rcases hmiss with h | h <;> simp [h]
  have hsome : ((if req.hasTools ∧ optFalsy req.tool_choice then
      { req with tool_choice := some "auto" } else req).messages.find?
      (fun m => m.role == "tool" &&
        (optFalsy m.tool_call_id || optFalsy m.content))).isSome = true := by
    rw [vDefault_messages]
    exact List.find?_isSome.mpr ⟨bad, hbad, hp⟩
  obtain ⟨w, hw⟩ := Option.isSome_iff_exists.mp hsome
  show (match (if req.hasTools ∧ optFalsy req.tool_choice then
      { req with tool_choice := some "auto" } else req).messages.find?
      (fun m => m.role == "tool" &&
        (optFalsy m.tool_call_id || optFalsy m.content)) with
    | some _ => Except.error "Tool messages must have tool_call_id and content"
    | none => Except.ok (if req.hasTools ∧ optFalsy req.tool_choice then
        { req with tool_choice := some "auto" } else req)) =
    Except.error "Tool messages must have tool_call_id and content"
  rw [hw]

theorem roleToolLoop_ok (req : VRequest)
    (hgood : ∀ m ∈ req.messages, m.role = "tool" →
      optFalsy m.tool_call_id = false ∧ optFalsy m.content = false) :
    kimiTransformRequestIn true req =
      Except.ok (if req.hasTools ∧ optFalsy req.tool_choice then
        { req with tool_choice := some "auto" } else req) := by
  have hnone : ((if req.hasTools ∧ optFalsy req.tool_choice then
      { req with tool_choice := some "auto" } else req).messages.find?
      (fun m => m.role == "tool" &&
        (optFalsy m.tool_call_id || optFalsy m.content))) = none := by
    rw [vDefault_messages]
    refine List.find?_eq_none.mpr ?_
    intro m hm
    by_cases hr : m.role = "tool"
    · obtain ⟨h1, h2⟩ := hgood m hm hr
      simp [hr, h1, h2]
    · simp [hr]
  show (match (if req.hasTools ∧ optFalsy req.tool_choice then
      { req with tool_choice := some "auto" } else req).messages.find?
      (fun m => m.role == "tool" &&
        (optFalsy m.tool_call_id || optFalsy m.content)) with
    | some _ => Except.error "Tool messages must have tool_call_id and content"
    | none => Except.ok (if req.hasTools ∧ optFalsy req.tool_choice then
        { req with tool_choice := some "auto" } else req)) =
    Except.ok (if req.hasTools ∧ optFalsy req.tool_choice then
      { req with tool_choice := some "auto" } else req)
  rw [hnone]

/-- C8: with acceptRoleTool=true, an inbound request containing a role=tool
message missing `tool_call_id` or missing `content` is rejected by the Kimi
and MiniMax-M2 request hooks with an error of kind bad_request (HTTP 400),
and a request all of whose tool messages carry a non-empty `tool_call_id`
and non-empty `content` passes the validation with its messages unchanged. -/
theorem role_tool_validation_bad_request
    (req req2 : VRequest) (bad : VMessage)
    (hbad : bad ∈ req.messages) (hrole : bad.role = "tool")
    (hmiss : optFalsy bad.tool_call_id = true ∨ optFalsy bad.content = true)
    (hgood : ∀ m ∈ req2.messages, m.role = "tool" →
      optFalsy m.tool_call_id = false ∧ optFalsy m.content = false) :
    errorKindOf (kimiTransformRequestIn true req) = some (400, "bad_request") ∧
    errorKindOf (miniMaxM2TransformRequestIn true req) = some (400, "bad_request") ∧
    (∃ r, kimiTransformRequestIn true req2 = Except.ok r ∧
      r.messages = req2.messages) ∧
    (∃ r, miniMaxM2TransformRequestIn true req2 = Except.ok r ∧
      r.messages = req2.messages) ∧
    errorKindOf (kimiTransformRequestIn true req2) = none ∧
    errorKindOf (miniMaxM2TransformRequestIn true req2) = none := by
  have herr := roleToolLoop_error req bad hbad hrole hmiss
  have hok := roleToolLoop_ok req2 hgood
  refine ⟨?_, ?_, ?_, ?_, ?_, ?_⟩
  · rw [herr]; rfl
  · rw [miniMax_eq_kimi, herr]; rfl
  · exact ⟨_, hok, vDefault_messages req2⟩
  · exact ⟨_, by rw [miniMax_eq_kimi]; exact hok, vDefault_messages req2⟩
  · rw [hok]; rfl
  · rw [miniMax_eq_kimi, hok]; rfl

theorem role_tool_validation_bad_request_witness :
    ((⟨"tool", some "result", none⟩ : VMessage) ∈
      [(⟨"tool", some "result", none⟩ : VMessage)]) ∧
    errorKindOf (kimiTransformRequestIn true
        ⟨[⟨"tool", some "result", none⟩], false, none⟩) =
      some (400, "bad_request") ∧
    errorKindOf (kimiTransformRequestIn true
        ⟨[⟨"user", some "hi", none⟩, ⟨"tool", some "res", some "call_1"⟩],
          true, none⟩) = none :=
  ⟨by decide,
    (role_tool_validation_bad_request
      ⟨[⟨"tool", some "result", none⟩], false, none⟩
      ⟨[⟨"user", some "hi", none⟩, ⟨"tool", some "res", some "call_1"⟩],
        true, none⟩
      ⟨"tool", some "result", none⟩
      (by decide) rfl (Or.inl rfl) (by decide)).1,
    (role_tool_validation_bad_request
      ⟨[⟨"tool", some "result", none⟩], false, none⟩
      ⟨[⟨"user", some "hi", none⟩, ⟨"tool", some "res", some "call_1"⟩],
        true, none⟩
      ⟨"tool", some "result", none⟩
      (by decide) rfl (Or.inl rfl) (by decide)).2.2.2.2.1⟩
